import Mathlib

/-!
Verification of the rask HTTP/1.1 request parser (`src/parser/h1/request.rs`,
`src/parser/raw_request.rs`, `src/parser/mod.rs`).

Bytes are modelled as `Nat` values (< 256 in every input considered).  The
SIMD (SSSE3 / AVX2) validator loops are modelled lane-wise: every intrinsic
used by the source (`_mm_shuffle_epi8`, `_mm_cmpeq_epi8`, `_mm_cmpgt_epi8`,
`_mm_or/and/andnot`, `_mm_movemask_epi8` + `trailing_zeros`) acts
independently on byte lanes, so a window scan reduces to counting the leading
lanes that satisfy the per-lane validity predicate.  Loops are written with an
explicit fuel argument (structural recursion, kernel-evaluable); the fuel
supplied by the wrappers (`buf.length + 1`) always exceeds the number of
iterations, since every loop iteration advances the position by at least one.

The source's `Status::Partial` is rendered as `pending` here because
`partial` is a Lean keyword.
-/

set_option maxRecDepth 100000

namespace Rask

/-- HTTP method (`src/parser/method.rs`). -/
inductive Method
  | get | put | post | head | trace | delete | options | connect
deriving DecidableEq, Repr

/-- The ASCII bytes of a method name. -/
def mname : Method → List Nat
  | .get => [71, 69, 84]
  | .put => [80, 85, 84]
  | .post => [80, 79, 83, 84]
  | .head => [72, 69, 65, 68]
  | .trace => [84, 82, 65, 67, 69]
  | .delete => [68, 69, 76, 69, 84, 69]
  | .options => [79, 80, 84, 73, 79, 78, 83]
  | .connect => [67, 79, 78, 78, 69, 67, 84]

/-- Length of a method name. -/
def mlen (m : Method) : Nat := (mname m).length

/-- HTTP version (`src/parser/version.rs`). -/
inductive Version
  | h1_0 | h1_1 | h2 | h3
deriving DecidableEq, Repr

/-- The ASCII bytes of a version literal. -/
def vname : Version → List Nat
  | .h1_0 => [72, 84, 84, 80, 47, 49, 46, 48]
  | .h1_1 => [72, 84, 84, 80, 47, 49, 46, 49]
  | .h2 => [72, 84, 84, 80, 47, 50]
  | .h3 => [72, 84, 84, 80, 47, 51]

/-- `ParseError` (`src/parser/mod.rs` lines 33-49).  Note: there is no
`Capacity` variant in the source enum. -/
inductive ParseError
  | method | target | version | headerName | headerValue | newLine | whitespace
deriving DecidableEq, Repr

/-- `Status<T>` (`src/parser/mod.rs`): `Complete(T)` or `Partial`
(rendered `pending`). -/
inductive Status (α : Type)
  | complete (val : α)
  | pending
deriving DecidableEq, Repr

/-- `ParseResult<T> = Result<Status<T>, ParseError>`. -/
abbrev PResult (α : Type) := Except ParseError (Status α)

/-- The `u64::from_le_bytes` view of a byte list: the first byte is the least
significant (x86 `from_ne_bytes` is little-endian). -/
def wordOfBytes (l : List Nat) : Nat := l.foldr (fun b acc => b + 256 * acc) 0

/-- The chain of masked comparisons of `parse_method` on the loaded 8-byte
word `eight`.  The masks `0xff_ffff`, `0xffff_ffff`, ... of the source are
the low-byte masks `256^3 - 1`, `256^4 - 1`, ..., so `eight & mask` is
`eight % 256^L`. -/
def matchMethodWord (eight : Nat) : PResult (Nat × Method) :=
  if eight % 256 ^ 3 = wordOfBytes (mname .get) then .ok (.complete (3, .get))
  else if eight % 256 ^ 3 = wordOfBytes (mname .put) then .ok (.complete (3, .put))
  else if eight % 256 ^ 4 = wordOfBytes (mname .post) then .ok (.complete (4, .post))
  else if eight % 256 ^ 4 = wordOfBytes (mname .head) then .ok (.complete (4, .head))
  else if eight % 256 ^ 5 = wordOfBytes (mname .trace) then .ok (.complete (5, .trace))
  else if eight % 256 ^ 6 = wordOfBytes (mname .delete) then .ok (.complete (6, .delete))
  else if eight % 256 ^ 7 = wordOfBytes (mname .options) then .ok (.complete (7, .options))
  else if eight % 256 ^ 7 = wordOfBytes (mname .connect) then .ok (.complete (7, .connect))
  else .error .method

/-- `parse_method` (`src/parser/h1/request.rs` lines 283-323). -/
def parse_method (buf : List Nat) : PResult (Nat × Method) :=
  if buf.length < 8 then .ok .pending
  else matchMethodWord (wordOfBytes (buf.take 8))

/-- `parse_version` (`src/parser/h1/request.rs` lines 455-481).
`SIX_BYTE_MASK = 0x0000_ffff_ffff_ffff = 256^6 - 1`. -/
def parse_version (buf : List Nat) (pos : Nat) : PResult (Nat × Version) :=
  if buf.length - pos < 8 then .ok .pending
  else
    let eight := wordOfBytes ((buf.drop pos).take 8)
    if eight = wordOfBytes (vname .h1_1) then .ok (.complete (pos + 8, .h1_1))
    else if eight = wordOfBytes (vname .h1_0) then .ok (.complete (pos + 8, .h1_0))
    else if eight % 256 ^ 6 = wordOfBytes (vname .h2) then .ok (.complete (pos + 6, .h2))
    else if eight % 256 ^ 6 = wordOfBytes (vname .h3) then .ok (.complete (pos + 6, .h3))
    else .error .version

/-! ## SIMD lane semantics

`_mm_cmpgt_epi8` compares lanes as signed i8; `toSigned` is that reading of a
byte.  `_mm_shuffle_epi8 table ctrl` yields, per lane, `0` when bit 7 of the
control byte is set and `table[ctrl & 0x0f]` otherwise.  The row control of
the table-based validators is `(data >> 4) & 0x0f` (the `_mm_srli_epi16` by 4
followed by `and` with `0x0f` leaves exactly the high nibble of every byte
lane, the bits shifted in from the neighbouring byte being cleared by the
mask), i.e. `b / 16` for a byte `b`. -/

/-- A byte read as a signed i8, as `_mm_cmpgt_epi8` does. -/
def toSigned (b : Nat) : Int :=
  if b % 256 < 128 then ((b % 256 : Nat) : Int) else ((b % 256 : Nat) : Int) - 256

/-- Per-lane semantics of `_mm_shuffle_epi8`/`_mm256_shuffle_epi8`. -/
def shuffleLane (table : List Nat) (c : Nat) : Nat :=
  if 128 ≤ c then 0 else table.getD (c % 16) 0

/-- The `row_map` of all table-based validators:
`[0x01,0x02,0x04,0x08,0x10,0x20,0x40,0x80, 0,...,0]`. -/
def rowMapList : List Nat := [1, 2, 4, 8, 16, 32, 64, 128, 0, 0, 0, 0, 0, 0, 0, 0]

/-- The `col_map` of `parse_target_vectorized_{avx2,ssse3}`. -/
def targetColList : List Nat :=
  [0xf8, 0xfc, 0xfc, 0xfc, 0xfc, 0xfc, 0xfc, 0xfc,
   0xfc, 0xfc, 0xfc, 0xfc, 0xf4, 0xfc, 0xf4, 0x7c]

/-- The `col_map` of `validate_header_name_{avx2,ssse3}`. -/
def nameColList : List Nat :=
  [0xe8, 0xfc, 0xf8, 0xfc, 0xfc, 0xfc, 0xfc, 0xfc,
   0xf8, 0xf8, 0xf4, 0x54, 0xd0, 0x54, 0xf4, 0x70]

/-- Lane validity for the (row_map, col_map) scheme: the lane contributes a
zero bit to the movemask (counted by `trailing_zeros` as still-valid) exactly
when `row_map[b >> 4] & col_map[b & 0x0f]` (with the shuffle's bit-7 rule) is
nonzero. -/
def tableLane (colMap : List Nat) (b : Nat) : Bool :=
  Nat.land (shuffleLane rowMapList (b / 16)) (shuffleLane colMap b) ≠ 0

/-- Lane validity of the target validators. -/
def targetLane (b : Nat) : Bool := tableLane targetColList b

/-- Lane validity of the header-name validators. -/
def nameLane (b : Nat) : Bool := tableLane nameColList b

/-- Lane validity of `validate_header_value_{avx2,ssse3}`:
`valid = andnot(is_del, above_low | is_tab)` with `above_low` the signed
comparison `data >s 0x1f`. -/
def valueLane (b : Nat) : Bool :=
  (!(b == 127)) && (decide (toSigned 31 < toSigned b) || b == 9)

/-- `Result<usize, usize>` returned by the vectorized validators: `Ok(pos)`
when the scan stopped on an invalid byte inside a full window, `Err(pos)`
when fewer than a window of bytes remained. -/
inductive VResult
  | ok (n : Nat)
  | err (n : Nat)
deriving DecidableEq, Repr

/-- Number of leading bytes of a window whose lane is valid — the value of
`movemask(..) .trailing_zeros()` over the window's lanes. -/
def leadingValid (P : Nat → Bool) : List Nat → Nat
  | [] => 0
  | b :: rest => if P b then leadingValid P rest + 1 else 0

/-- The 16-byte-window validator loop (`while buf[pos..].len() >= 16`),
with fuel.  Lane predicate `P` distinguishes the individual validators. -/
def simdGo16 (P : Nat → Bool) (buf : List Nat) : Nat → Nat → VResult
  | pos, 0 => .err pos
  | pos, fuel + 1 =>
    if 16 ≤ buf.length - pos then
      let k := leadingValid P ((buf.drop pos).take 16)
      if k = 16 then simdGo16 P buf (pos + 16) fuel else .ok (pos + k)
    else .err pos

/-- The 32-byte-window validator loop (`while buf[pos..].len() >= 32`). -/
def simdGo32 (P : Nat → Bool) (buf : List Nat) : Nat → Nat → VResult
  | pos, 0 => .err pos
  | pos, fuel + 1 =>
    if 32 ≤ buf.length - pos then
      let k := leadingValid P ((buf.drop pos).take 32)
      if k = 32 then simdGo32 P buf (pos + 32) fuel else .ok (pos + k)
    else .err pos

/-- `parse_target_vectorized_avx2` (`src/parser/h1/request.rs` lines 331-373). -/
def parse_target_vectorized_avx2 (buf : List Nat) (pos : Nat) : VResult :=
  simdGo32 targetLane buf pos (buf.length + 1)

/-- `parse_target_vectorized_ssse3` (`src/parser/h1/request.rs` lines 381-419). -/
def parse_target_vectorized_ssse3 (buf : List Nat) (pos : Nat) : VResult :=
  simdGo16 targetLane buf pos (buf.length + 1)

/-- `validate_header_name_avx2` (`src/parser/h1/request.rs` lines 489-531). -/
def validate_header_name_avx2 (buf : List Nat) (pos : Nat) : VResult :=
  simdGo32 nameLane buf pos (buf.length + 1)

/-- `validate_header_name_ssse3` (`src/parser/h1/request.rs` lines 539-577). -/
def validate_header_name_ssse3 (buf : List Nat) (pos : Nat) : VResult :=
  simdGo16 nameLane buf pos (buf.length + 1)

/-- `validate_header_value_avx2` (`src/parser/h1/request.rs` lines 584-616). -/
def validate_header_value_avx2 (buf : List Nat) (pos : Nat) : VResult :=
  simdGo32 valueLane buf pos (buf.length + 1)

/-- `validate_header_value_ssse3` (`src/parser/h1/request.rs` lines 623-655). -/
def validate_header_value_ssse3 (buf : List Nat) (pos : Nat) : VResult :=
  simdGo16 valueLane buf pos (buf.length + 1)

/-! ## Bounds-checked variants of the vectorized loops

`loadWindow` models the W-byte `_mm_lddqu` load together with its bounds
obligation: it fails (`none`) whenever the load would touch a byte at or
beyond `buf.length`.  The checked loops propagate that failure. -/

/-- A W-byte load that fails when it would read past the end of the buffer. -/
def loadWindow (w : Nat) (buf : List Nat) (pos : Nat) : Option (List Nat) :=
  if pos + w ≤ buf.length then some ((buf.drop pos).take w) else none

/-- `simdGo16` with every load bounds-checked. -/
def simdGoChecked16 (P : Nat → Bool) (buf : List Nat) : Nat → Nat → Option VResult
  | pos, 0 => some (.err pos)
  | pos, fuel + 1 =>
    if 16 ≤ buf.length - pos then
      match loadWindow 16 buf pos with
      | none => none
      | some w =>
        let k := leadingValid P w
        if k = 16 then simdGoChecked16 P buf (pos + 16) fuel else some (.ok (pos + k))
    else some (.err pos)

/-- `simdGo32` with every load bounds-checked. -/
def simdGoChecked32 (P : Nat → Bool) (buf : List Nat) : Nat → Nat → Option VResult
  | pos, 0 => some (.err pos)
  | pos, fuel + 1 =>
    if 32 ≤ buf.length - pos then
      match loadWindow 32 buf pos with
      | none => none
      | some w =>
        let k := leadingValid P w
        if k = 32 then simdGoChecked32 P buf (pos + 32) fuel else some (.ok (pos + k))
    else some (.err pos)

/-- Bounds-checked `parse_target_vectorized_avx2`. -/
def checked_parse_target_vectorized_avx2 (buf : List Nat) (pos : Nat) : Option VResult :=
  simdGoChecked32 targetLane buf pos (buf.length + 1)

/-- Bounds-checked `parse_target_vectorized_ssse3`. -/
def checked_parse_target_vectorized_ssse3 (buf : List Nat) (pos : Nat) : Option VResult :=
  simdGoChecked16 targetLane buf pos (buf.length + 1)

/-- Bounds-checked `validate_header_name_avx2`. -/
def checked_validate_header_name_avx2 (buf : List Nat) (pos : Nat) : Option VResult :=
  simdGoChecked32 nameLane buf pos (buf.length + 1)

/-- Bounds-checked `validate_header_name_ssse3`. -/
def checked_validate_header_name_ssse3 (buf : List Nat) (pos : Nat) : Option VResult :=
  simdGoChecked16 nameLane buf pos (buf.length + 1)

/-- Bounds-checked `validate_header_value_avx2`. -/
def checked_validate_header_value_avx2 (buf : List Nat) (pos : Nat) : Option VResult :=
  simdGoChecked32 valueLane buf pos (buf.length + 1)

/-- Bounds-checked `validate_header_value_ssse3`. -/
def checked_validate_header_value_ssse3 (buf : List Nat) (pos : Nat) : Option VResult :=
  simdGoChecked16 valueLane buf pos (buf.length + 1)

/-! ## Scalar token classifiers

The module `src/parser/h1/tokens.rs` declared by `src/parser/h1/mod.rs` and
imported by `request.rs` is not present in the sources under review; the
three predicates are modelled from the spec (§4.1). -/

/-- Modelled from the spec: `is_request_target_token` (the file
`src/parser/h1/tokens.rs` is missing).  Spec §4.1: request-target bytes are
VCHAR, printable ASCII `0x21`-`0x7e`. -/
def is_request_target_token (b : Nat) : Bool := 33 ≤ b && b ≤ 126

/-- Modelled from the spec: `is_header_name_token` (the file
`src/parser/h1/tokens.rs` is missing).  Spec §4.1: RFC 9110 `tchar`. -/
def is_header_name_token (b : Nat) : Bool :=
  (48 ≤ b && b ≤ 57) || (65 ≤ b && b ≤ 90) || (97 ≤ b && b ≤ 122) ||
  b == 33 || b == 35 || b == 36 || b == 37 || b == 38 || b == 39 ||
  b == 42 || b == 43 || b == 45 || b == 46 || b == 94 || b == 95 ||
  b == 96 || b == 124 || b == 126

/-- Modelled from the spec: `is_header_value_token` (the file
`src/parser/h1/tokens.rs` is missing).  Spec §4.1/§4.4: the class is
`(b > 0x1f ∨ b = 0x09) ∧ b ≠ 0x7f` with `b` an unsigned byte (VCHAR, HTAB
and obs-text accepted). -/
def is_header_value_token (b : Nat) : Bool := (31 < b || b == 9) && b != 127

/-- The scalar `for &b in &buf[pos..]` loop shared by `parse_target`,
`get_header_name` and `get_header_value`: advance while the classifier
accepts, yield `some` of the stop position at the first rejected byte, and
`none` when the end of the buffer is reached first. -/
def scanGo (P : Nat → Bool) (buf : List Nat) : Nat → Nat → Option Nat
  | _, 0 => none
  | pos, fuel + 1 =>
    if pos < buf.length then
      if P (buf.getD pos 0) then scanGo P buf (pos + 1) fuel else some pos
    else none

/-- `parse_target` (`src/parser/h1/request.rs` lines 422-452): AVX2 loop,
then SSSE3 loop, then the scalar classifier loop.  There is no emptiness
check on the target. -/
def parse_target (buf : List Nat) (pos : Nat) : PResult (Nat × (Nat × Nat)) :=
  let start := pos
  match parse_target_vectorized_avx2 buf pos with
  | .ok n => .ok (.complete (n, (start, n)))
  | .err n =>
    match parse_target_vectorized_ssse3 buf n with
    | .ok n2 => .ok (.complete (n2, (start, n2)))
    | .err n2 =>
      match scanGo is_request_target_token buf n2 (buf.length + 1) with
      | some stop => .ok (.complete (stop, (start, stop)))
      | none => .ok .pending

/-- `get_header_name` (`src/parser/h1/request.rs` lines 658-692).  Only the
scalar tail rejects an empty name; the vectorized paths return
`Complete` with an empty range when the first byte is lane-invalid. -/
def get_header_name (buf : List Nat) (pos : Nat) : PResult (Nat × (Nat × Nat)) :=
  let start := pos
  match validate_header_name_avx2 buf pos with
  | .ok n => .ok (.complete (n, (start, n)))
  | .err n =>
    match validate_header_name_ssse3 buf n with
    | .ok n2 => .ok (.complete (n2, (start, n2)))
    | .err n2 =>
      match scanGo is_header_name_token buf n2 (buf.length + 1) with
      | some stop =>
        if start = stop then .error .headerName else .ok (.complete (stop, (start, stop)))
      | none => .ok .pending

/-- `get_header_value` (`src/parser/h1/request.rs` lines 695-729). -/
def get_header_value (buf : List Nat) (pos : Nat) : PResult (Nat × (Nat × Nat)) :=
  let start := pos
  match validate_header_value_avx2 buf pos with
  | .ok n => .ok (.complete (n, (start, n)))
  | .err n =>
    match validate_header_value_ssse3 buf n with
    | .ok n2 => .ok (.complete (n2, (start, n2)))
    | .err n2 =>
      match scanGo is_header_value_token buf n2 (buf.length + 1) with
      | some stop =>
        if start = stop then .error .headerValue else .ok (.complete (stop, (start, stop)))
      | none => .ok .pending

/-! ## Whitespace and newline helpers

`request.rs` calls slice-position based functions
`discard_required_whitespace(buf, pos, err)`, `discard_required_newline(buf,
pos, err)` and `discard_whitespace(buf, pos)`; none of these exist under the
sources under review (`src/parser/h1/mod.rs` only has cursor-based
functions of different signatures, and no `discard_required_newline` at
all).  They are modelled from the spec. -/

/-- Modelled from the spec: the slice-based `discard_required_whitespace`
called by `H1Request::parse` is missing from the sources.  Spec §4.5
whitespace policy: between method and target and between target and version
"a single `SP` (0x20) is required; no other whitespace is accepted in those
positions"; reaching the end of input instead is a `Partial`. -/
def discard_required_whitespace (buf : List Nat) (pos : Nat) (err : ParseError) : PResult Nat :=
  if pos < buf.length then
    if buf.getD pos 0 = 32 then .ok (.complete (pos + 1)) else .error err
  else .ok .pending

/-- Modelled from the spec: the slice-based `discard_required_newline`
called by `H1Request::parse` and `parse_headers` is missing from the
sources.  Spec §4.5: end-of-line is strictly CRLF (`0x0d 0x0a`); a bare LF
or any other byte is an error; running out of input inside the CRLF
lookahead is a `Partial`. -/
def discard_required_newline (buf : List Nat) (pos : Nat) (err : ParseError) : PResult Nat :=
  if pos < buf.length then
    if buf.getD pos 0 = 13 then
      if pos + 1 < buf.length then
        if buf.getD (pos + 1) 0 = 10 then .ok (.complete (pos + 2)) else .error err
      else .ok .pending
    else .error err
  else .ok .pending

/-- Loop of `discard_whitespace`, with fuel. -/
def dwGo (buf : List Nat) : Nat → Nat → Option Nat
  | _, 0 => none
  | pos, fuel + 1 =>
    if pos < buf.length then
      if buf.getD pos 0 == 32 || buf.getD pos 0 == 9 then dwGo buf (pos + 1) fuel else some pos
    else none

/-- Modelled from the spec: the slice-based `discard_whitespace` called by
`parse_headers` is missing from the sources.  Spec §4.5: after `:` in a
header and before the line's CRLF, zero or more SP/HTAB (OWS) are skipped;
reaching the end of input while still inside possible OWS yields `none`
(the driver turns it into a `Partial`). -/
def discard_whitespace (buf : List Nat) (pos : Nat) : Option Nat :=
  dwGo buf pos (buf.length + 1)

/-! ## Header parsing and the request driver -/

/-- `Header` (`src/parser/h1/request.rs` lines 31-37): a pair of half-open
ranges into the request buffer. -/
structure Header where
  name : Nat × Nat
  value : Nat × Nat
deriving DecidableEq, Repr

/-- Outcome of `parse_headers`.  The source's `HeaderStatus` carries the
number of headers written into the caller's array; here the written headers
are carried directly.  `crash` models the out-of-bounds panic of
`headers[idx].write(..)` when `idx` reaches the array's capacity. -/
inductive HeadersOutcome
  | complete (pos : Nat) (headers : List Header)
  | pending (headers : List Header)
  | error (e : ParseError)
  | crash
deriving DecidableEq, Repr

/-- The loop of `parse_headers` (`src/parser/h1/request.rs` lines 737-794),
with fuel.  Every iteration that recurses has consumed at least the `:` and
a CRLF (3 bytes), so the `buf.length + 1` fuel supplied by `parse_headers`
is never exhausted; the fuel-out branch is unreachable. -/
def parseHeadersGo (buf : List Nat) (cap : Nat) : Nat → List Header → Nat → HeadersOutcome
  | _, _, 0 => .error .headerName
  | pos, acc, fuel + 1 =>
    match get_header_name buf pos with
    | .ok .pending => .pending acc
    | .error e =>
      if 2 ≤ buf.length - pos ∧ (buf.drop pos).take 2 = [13, 10] then .complete pos acc
      else .error e
    | .ok (.complete (read, name)) =>
      if buf.getD read 0 = 58 then
        match discard_whitespace buf (read + 1) with
        | none => .pending acc
        | some n =>
          match get_header_value buf n with
          | .ok .pending => .pending acc
          | .error e => .error e
          | .ok (.complete (read2, value)) =>
            if acc.length < cap then
              match discard_whitespace buf read2 with
              | none => .pending (acc ++ [⟨name, value⟩])
              | some n2 =>
                match discard_required_newline buf n2 .headerValue with
                | .ok (.complete n3) => parseHeadersGo buf cap n3 (acc ++ [⟨name, value⟩]) fuel
                | .ok .pending => .pending (acc ++ [⟨name, value⟩])
                | .error e => .error e
            else .crash
      else .error .headerName

/-- `parse_headers` (`src/parser/h1/request.rs` lines 737-794).  `cap` is
the capacity of the caller-supplied header array (96 in `H1Request::parse`). -/
def parse_headers (buf : List Nat) (pos : Nat) (cap : Nat) : HeadersOutcome :=
  parseHeadersGo buf cap pos [] (buf.length + 1)

/-- `H1Request` (`src/parser/h1/request.rs` lines 47-60). -/
structure H1Request where
  data : List Nat
  complete : Bool
  method : Option Method
  target : Option (Nat × Nat)
  version : Option Version
  headers : Option (List Header)
deriving DecidableEq, Repr

/-- Outcome of `H1Request::parse`: `Ok(Complete(n))`, `Ok(Partial)`
(rendered `pending`), `Err(e)`, or the out-of-bounds panic of the header
array write (`crash`). -/
inductive POutcome
  | complete (n : Nat)
  | pending
  | error (e : ParseError)
  | crash
deriving DecidableEq, Repr

/-- `H1Request::parse` (`src/parser/h1/request.rs` lines 198-279), returning
the updated request together with the outcome. -/
def H1Request.parse (self : H1Request) : H1Request × POutcome :=
  match parse_method self.data with
  | .ok .pending => (self, .pending)
  | .error e => (self, .error e)
  | .ok (.complete (read, m)) =>
    let s1 : H1Request := { self with method := some m }
    match discard_required_whitespace s1.data read .method with
    | .ok .pending => (s1, .pending)
    | .error e => (s1, .error e)
    | .ok (.complete p1) =>
      match parse_target s1.data p1 with
      | .ok .pending => (s1, .pending)
      | .error e => (s1, .error e)
      | .ok (.complete (p2, rng)) =>
        let s2 : H1Request := { s1 with target := some rng }
        match discard_required_whitespace s2.data p2 .method with
        | .ok .pending => (s2, .pending)
        | .error e => (s2, .error e)
        | .ok (.complete p3) =>
          match parse_version s2.data p3 with
          | .ok .pending => (s2, .pending)
          | .error e => (s2, .error e)
          | .ok (.complete (p4, ver)) =>
            let s3 : H1Request := { s2 with version := some ver }
            match discard_required_newline s3.data p4 .newLine with
            | .ok .pending => (s3, .pending)
            | .error e => (s3, .error e)
            | .ok (.complete p5) =>
              match parse_headers s3.data p5 96 with
              | .pending hs => ({ s3 with headers := some hs }, .pending)
              | .error e => (s3, .error e)
              | .crash => (s3, .crash)
              | .complete p6 hs =>
                let s4 : H1Request := { s3 with headers := some hs }
                match discard_required_newline s4.data p6 .newLine with
                | .ok .pending => (s4, .pending)
                | .error e => (s4, .error e)
                | .ok (.complete p7) => ({ s4 with complete := true }, .complete p7)

/-- A freshly constructed request (`H1Request::new`) filled with `data`,
then parsed. -/
def parseFresh (data : List Nat) : H1Request × POutcome :=
  H1Request.parse { data := data, complete := false, method := none, target := none,
                    version := none, headers := none }

/-! ## The cursor (`src/parser/raw_request.rs`) -/

/-- `RawRequest` (`src/parser/raw_request.rs`): the raw input together with
the iteration position. -/
structure RawRequest where
  inner : List Nat
  pos : Nat
deriving DecidableEq, Repr

/-- `RawRequest::slice`: yield the consumed prefix `inner[0..pos]` and
retain only the tail, resetting the position. -/
def RawRequest.slice (r : RawRequest) : List Nat × RawRequest :=
  (r.inner.take r.pos, ⟨r.inner.drop r.pos, 0⟩)

/-- The loop of `RawRequest::take_until` (`src/parser/raw_request.rs` lines
128-162), with fuel: peek at the current byte; on a byte matching the
predicate, slice and return the slice when non-empty; on a non-matching
byte advance; at the end of the buffer, slice (discarding the result) and
return `None`. -/
def RawRequest.takeUntilGo (pred : Nat → Bool) : RawRequest → Nat → Option (List Nat) × RawRequest
  | r, 0 => (none, r)
  | r, fuel + 1 =>
    match r.inner.get? r.pos with
    | some b =>
      if pred b then
        let s := RawRequest.slice r
        (if s.1.isEmpty then none else some s.1, s.2)
      else RawRequest.takeUntilGo pred ⟨r.inner, r.pos + 1⟩ fuel
    | none => (none, (RawRequest.slice r).2)

/-- `RawRequest::take_until` (`src/parser/raw_request.rs` lines 128-162).
Each iteration advances `pos` by one, so `inner.length + 1` fuel is never
exhausted. -/
def RawRequest.take_until (r : RawRequest) (pred : Nat → Bool) :
    Option (List Nat) × RawRequest :=
  RawRequest.takeUntilGo pred r (r.inner.length - r.pos + 1)

/-! ## Derived definitions used by the statements below -/

/-- The byte class actually enforced by the vectorized header-value
validators: the signed-comparison reading
`(0x1f < b < 0x80 ∨ b = 0x09) ∧ b ≠ 0x7f`, written out arithmetically.
Provably equal to `valueLane` on bytes (see `valueLane_char`); differs from
the scalar `is_header_value_token` exactly on obs-text `0x80`-`0xff`. -/
def sValue (b : Nat) : Bool := ((31 < b && b < 128) || b == 9) && b != 127

/-- The wire form `{m} SP {t} SP {v} CRLF CRLF` of a header-less request
(association chosen so that each parsing stage's remaining input is a
suffix subterm). -/
def reqLine (M : Method) (t : List Nat) (v : Version) : List Nat :=
  mname M ++ ([32] ++ (t ++ ([32] ++ (vname v ++ [13, 10, 13, 10]))))

/-- The value `H1Request.parse` leaves in the `method` field of a fresh
request: set exactly when the method stage completed. -/
def methodStage (data : List Nat) : Option Method :=
  match parse_method data with
  | .ok (.complete (_, m)) => some m
  | _ => none

/-- The value `H1Request.parse` leaves in the `target` field of a fresh
request: set exactly when the stages up to and including the target
completed. -/
def targetStage (data : List Nat) : Option (Nat × Nat) :=
  match parse_method data with
  | .ok (.complete (read, _)) =>
    match discard_required_whitespace data read .method with
    | .ok (.complete p1) =>
      match parse_target data p1 with
      | .ok (.complete (_, rng)) => some rng
      | _ => none
    | _ => none
  | _ => none

/-- The value `H1Request.parse` leaves in the `version` field of a fresh
request: set exactly when the stages up to and including the version
completed. -/
def versionStage (data : List Nat) : Option Version :=
  match parse_method data with
  | .ok (.complete (read, _)) =>
    match discard_required_whitespace data read .method with
    | .ok (.complete p1) =>
      match parse_target data p1 with
      | .ok (.complete (p2, _)) =>
        match discard_required_whitespace data p2 .method with
        | .ok (.complete p3) =>
          match parse_version data p3 with
          | .ok (.complete (_, v)) => some v
          | _ => none
        | _ => none
      | _ => none
    | _ => none
  | _ => none

/-- `GET / HTTP/1.1` followed by 97 well-formed `A:b` header lines and the
terminating CRLF — one header more than the 96-slot array supplied by
`H1Request::parse`. -/
def capacityInput : List Nat :=
  [71, 69, 84, 32, 47, 32, 72, 84, 84, 80, 47, 49, 46, 49, 13, 10] ++
    (List.replicate 97 [65, 58, 98, 13, 10]).flatten ++ [13, 10]

/-- `GET / HTTP/1.1\r\n\r\n` followed by 16 further buffered bytes (`A`...),
so that 18 bytes remain at the end-of-headers position. -/
def crlfWithTrailing : List Nat :=
  [71, 69, 84, 32, 47, 32, 72, 84, 84, 80, 47, 49, 46, 49, 13, 10, 13, 10] ++
    List.replicate 16 65

/-! ## Helper lemmas: little-endian words -/

theorem wordOfBytes_nil : wordOfBytes [] = 0 := rfl

theorem wordOfBytes_cons (b : Nat) (l : List Nat) :
    wordOfBytes (b :: l) = b + 256 * wordOfBytes l := rfl

theorem wordOfBytes_append (l1 l2 : List Nat) :
    wordOfBytes (l1 ++ l2) = wordOfBytes l1 + 256 ^ l1.length * wordOfBytes l2 := by
  induction l1 with
  | nil => simp [wordOfBytes_nil]
  | cons b l ih =>
    simp only [List.cons_append, wordOfBytes_cons, ih, List.length_cons]
    ring

theorem wordOfBytes_lt (l : List Nat) (h : ∀ b ∈ l, b < 256) :
    wordOfBytes l < 256 ^ l.length := by
  induction l with
  | nil => simp [wordOfBytes_nil]
  | cons b l ih =>
    have hb : b < 256 := h b (by simp)
    have hl := ih (fun x hx => h x (by simp [hx]))
    simp only [wordOfBytes_cons, List.length_cons, pow_succ]
    nlinarith

theorem wordOfBytes_inj (l1 l2 : List Nat) (hlen : l1.length = l2.length)
    (h1 : ∀ b ∈ l1, b < 256) (h2 : ∀ b ∈ l2, b < 256)
    (h : wordOfBytes l1 = wordOfBytes l2) : l1 = l2 := by
  induction l1 generalizing l2 with
  | nil => cases l2 with
    | nil => rfl
    | cons c t => simp at hlen
  | cons b t ih =>
    cases l2 with
    | nil => simp at hlen
    | cons c t2 =>
      have hb : b < 256 := h1 b (by simp)
      have hc : c < 256 := h2 c (by simp)
      simp only [wordOfBytes_cons] at h
      have hbc : b = c ∧ wordOfBytes t = wordOfBytes t2 := by omega
      have ht : t = t2 :=
        ih t2 (by simpa using hlen) (fun x hx => h1 x (by simp [hx]))
          (fun x hx => h2 x (by simp [hx])) hbc.2
      simp [hbc.1, ht]

theorem word_mod_head (c l : List Nat) (hc : ∀ b ∈ c, b < 256) :
    wordOfBytes (c ++ l) % 256 ^ c.length = wordOfBytes c := by
  rw [wordOfBytes_append, Nat.add_mul_mod_self_left,
    Nat.mod_eq_of_lt (wordOfBytes_lt c hc)]

/-! ## Helper lemmas: indexing -/

theorem getD_drop (l : List Nat) (n i : Nat) : (l.drop n).getD i 0 = l.getD (n + i) 0 := by
  induction n generalizing l with
  | zero => simp
  | succ n ih =>
    cases l with
    | nil => simp
    | cons a t =>
      rw [List.drop_succ_cons, ih t, show n + 1 + i = (n + i) + 1 by omega,
        List.getD_cons_succ]

theorem getD_take (l : List Nat) (n i : Nat) (h : i < n) :
    (l.take n).getD i 0 = l.getD i 0 := by
  induction n generalizing l i with
  | zero => omega
  | succ n ih =>
    cases l with
    | nil => simp
    | cons a t =>
      cases i with
      | zero => simp
      | succ i => simpa using ih t i (by omega)

theorem window_getD (buf : List Nat) (pos w i : Nat) (hi : i < w) :
    ((buf.drop pos).take w).getD i 0 = buf.getD (pos + i) 0 := by
  rw [getD_take _ _ _ hi, getD_drop]

theorem getD_append_lt (l1 l2 : List Nat) (i : Nat) (h : i < l1.length) :
    (l1 ++ l2).getD i 0 = l1.getD i 0 := by
  induction l1 generalizing i with
  | nil => simp at h
  | cons a l ih =>
    cases i with
    | zero => simp
    | succ i => simpa using ih i (by simpa using h)

theorem getD_append_ge (l1 l2 : List Nat) (i : Nat) (h : l1.length ≤ i) :
    (l1 ++ l2).getD i 0 = l2.getD (i - l1.length) 0 := by
  induction l1 generalizing i with
  | nil => simp
  | cons a l ih =>
    cases i with
    | zero => simp at h
    | succ i => simpa using ih i (by simpa using h)

theorem getD_is_mem (l : List Nat) (i : Nat) (h : i < l.length) : l.getD i 0 ∈ l := by
  induction l generalizing i with
  | nil => simp at h
  | cons a t ih =>
    cases i with
    | zero => simp
    | succ i => simpa using Or.inr (ih i (by simpa using h))

/-! ## Helper lemmas: leading-valid counts of a window -/

theorem leadingValid_le (P : Nat → Bool) (l : List Nat) : leadingValid P l ≤ l.length := by
  induction l with
  | nil => simp [leadingValid]
  | cons b t ih =>
    by_cases hb : P b
    · simp only [leadingValid, if_pos hb, List.length_cons]; omega
    · simp [leadingValid, hb]

theorem leadingValid_valid (P : Nat → Bool) (l : List Nat) :
    ∀ i, i < leadingValid P l → P (l.getD i 0) = true := by
  induction l with
  | nil => intro i h; simp [leadingValid] at h
  | cons b t ih =>
    intro i h
    by_cases hb : P b
    · cases i with
      | zero => simpa using hb
      | succ i =>
        simp only [leadingValid, if_pos hb] at h
        simpa using ih i (by omega)
    · simp [leadingValid, hb] at h

theorem leadingValid_stop (P : Nat → Bool) (l : List Nat)
    (h : leadingValid P l < l.length) : P (l.getD (leadingValid P l) 0) = false := by
  induction l with
  | nil => simp [leadingValid] at h
  | cons b t ih =>
    by_cases hb : P b
    · simp only [leadingValid, if_pos hb] at h ⊢
      simpa using ih (by simpa using h)
    · simp [leadingValid, hb, Bool.eq_false_iff, hb]

/-! ## Specifications of the vectorized loops -/

theorem simdGo16_ok (P : Nat → Bool) (buf : List Nat) :
    ∀ fuel pos n, buf.length - pos < 16 * fuel →
      simdGo16 P buf pos fuel = .ok n →
      pos ≤ n ∧ n < buf.length ∧ (∀ i, pos ≤ i → i < n → P (buf.getD i 0) = true) ∧
        P (buf.getD n 0) = false := by
  intro fuel
  induction fuel with
  | zero => intro pos n hf h; omega
  | succ fuel ih =>
    intro pos n hf h
    by_cases hg : 16 ≤ buf.length - pos
    · have hwlen : ((buf.drop pos).take 16).length = 16 := by
        simp [List.length_take, List.length_drop]; omega
      simp only [simdGo16, if_pos hg] at h
      by_cases hk : leadingValid P ((buf.drop pos).take 16) = 16
      · rw [if_pos hk] at h
        obtain ⟨h1, h2, h3, h4⟩ := ih (pos + 16) n (by omega) h
        refine ⟨by omega, h2, ?_, h4⟩
        intro i hi1 hi2
        by_cases hi3 : i < pos + 16
        · have := leadingValid_valid P ((buf.drop pos).take 16) (i - pos) (by omega)
          rwa [window_getD buf pos 16 (i - pos) (by omega),
            Nat.add_sub_cancel' hi1] at this
        · exact h3 i (by omega) hi2
      · rw [if_neg hk] at h
        have hkle : leadingValid P ((buf.drop pos).take 16) ≤ 16 := by
          have := leadingValid_le P ((buf.drop pos).take 16); omega
        cases h
        refine ⟨by omega, by omega, ?_, ?_⟩
        · intro i hi1 hi2
          have := leadingValid_valid P ((buf.drop pos).take 16) (i - pos) (by omega)
          rwa [window_getD buf pos 16 (i - pos) (by omega), Nat.add_sub_cancel' hi1] at this
        · have := leadingValid_stop P ((buf.drop pos).take 16) (by omega)
          rwa [window_getD buf pos 16 _ (by omega)] at this
    · simp only [simdGo16, if_neg hg] at h
      exact absurd h (by simp)

theorem simdGo16_err (P : Nat → Bool) (buf : List Nat) :
    ∀ fuel pos n, buf.length - pos < 16 * fuel →
      simdGo16 P buf pos fuel = .err n →
      pos ≤ n ∧ buf.length - n < 16 ∧ (∀ i, pos ≤ i → i < n → P (buf.getD i 0) = true) := by
  intro fuel
  induction fuel with
  | zero => intro pos n hf h; omega
  | succ fuel ih =>
    intro pos n hf h
    by_cases hg : 16 ≤ buf.length - pos
    · have hwlen : ((buf.drop pos).take 16).length = 16 := by
        simp [List.length_take, List.length_drop]; omega
      simp only [simdGo16, if_pos hg] at h
      by_cases hk : leadingValid P ((buf.drop pos).take 16) = 16
      · rw [if_pos hk] at h
        obtain ⟨h1, h2, h3⟩ := ih (pos + 16) n (by omega) h
        refine ⟨by omega, h2, ?_⟩
        intro i hi1 hi2
        by_cases hi3 : i < pos + 16
        · have := leadingValid_valid P ((buf.drop pos).take 16) (i - pos) (by omega)
          rwa [window_getD buf pos 16 (i - pos) (by omega), Nat.add_sub_cancel' hi1] at this
        · exact h3 i (by omega) hi2
      · rw [if_neg hk] at h; cases h
    · simp only [simdGo16, if_neg hg] at h
      cases h
      exact ⟨le_refl _, by omega, fun i hi1 hi2 => by omega⟩

theorem simdGo32_ok (P : Nat → Bool) (buf : List Nat) :
    ∀ fuel pos n, buf.length - pos < 32 * fuel →
      simdGo32 P buf pos fuel = .ok n →
      pos ≤ n ∧ n < buf.length ∧ (∀ i, pos ≤ i → i < n → P (buf.getD i 0) = true) ∧
        P (buf.getD n 0) = false := by
  intro fuel
  induction fuel with
  | zero => intro pos n hf h; omega
  | succ fuel ih =>
    intro pos n hf h
    by_cases hg : 32 ≤ buf.length - pos
    · have hwlen : ((buf.drop pos).take 32).length = 32 := by
        simp [List.length_take, List.length_drop]; omega
      simp only [simdGo32, if_pos hg] at h
      by_cases hk : leadingValid P ((buf.drop pos).take 32) = 32
      · rw [if_pos hk] at h
        obtain ⟨h1, h2, h3, h4⟩ := ih (pos + 32) n (by omega) h
        refine ⟨by omega, h2, ?_, h4⟩
        intro i hi1 hi2
        by_cases hi3 : i < pos + 32
        · have := leadingValid_valid P ((buf.drop pos).take 32) (i - pos) (by omega)
          rwa [window_getD buf pos 32 (i - pos) (by omega), Nat.add_sub_cancel' hi1] at this
        · exact h3 i (by omega) hi2
      · rw [if_neg hk] at h
        have hkle : leadingValid P ((buf.drop pos).take 32) ≤ 32 := by
          have := leadingValid_le P ((buf.drop pos).take 32); omega
        cases h
        refine ⟨by omega, by omega, ?_, ?_⟩
        · intro i hi1 hi2
          have := leadingValid_valid P ((buf.drop pos).take 32) (i - pos) (by omega)
          rwa [window_getD buf pos 32 (i - pos) (by omega), Nat.add_sub_cancel' hi1] at this
        · have := leadingValid_stop P ((buf.drop pos).take 32) (by omega)
          rwa [window_getD buf pos 32 _ (by omega)] at this
    · simp only [simdGo32, if_neg hg] at h
      exact absurd h (by simp)

theorem simdGo32_err (P : Nat → Bool) (buf : List Nat) :
    ∀ fuel pos n, buf.length - pos < 32 * fuel →
      simdGo32 P buf pos fuel = .err n →
      pos ≤ n ∧ buf.length - n < 32 ∧ (∀ i, pos ≤ i → i < n → P (buf.getD i 0) = true) := by
  intro fuel
  induction fuel with
  | zero => intro pos n hf h; omega
  | succ fuel ih =>
    intro pos n hf h
    by_cases hg : 32 ≤ buf.length - pos
    · have hwlen : ((buf.drop pos).take 32).length = 32 := by
        simp [List.length_take, List.length_drop]; omega
      simp only [simdGo32, if_pos hg] at h
      by_cases hk : leadingValid P ((buf.drop pos).take 32) = 32
      · rw [if_pos hk] at h
        obtain ⟨h1, h2, h3⟩ := ih (pos + 32) n (by omega) h
        refine ⟨by omega, h2, ?_⟩
        intro i hi1 hi2
        by_cases hi3 : i < pos + 32
        · have := leadingValid_valid P ((buf.drop pos).take 32) (i - pos) (by omega)
          rwa [window_getD buf pos 32 (i - pos) (by omega), Nat.add_sub_cancel' hi1] at this
        · exact h3 i (by omega) hi2
      · rw [if_neg hk] at h; cases h
    · simp only [simdGo32, if_neg hg] at h
      cases h
      exact ⟨le_refl _, by omega, fun i hi1 hi2 => by omega⟩

/-- When the bytes from `pos` up to a stop index `j` are all lane-valid and
the byte at `j` is lane-invalid, the 16-byte loop either stops exactly at
`j` (`Ok j`) or hands over a position `n ≤ j` within a window of the end. -/
theorem simdGo16_clean (P : Nat → Bool) (buf : List Nat) (pos j fuel : Nat)
    (hf : buf.length - pos < 16 * fuel) (hj : pos ≤ j) (_hjl : j < buf.length)
    (hv : ∀ i, pos ≤ i → i < j → P (buf.getD i 0) = true)
    (hs : P (buf.getD j 0) = false) :
    simdGo16 P buf pos fuel = .ok j ∨
      ∃ n, simdGo16 P buf pos fuel = .err n ∧ pos ≤ n ∧ n ≤ j ∧ buf.length - n < 16 := by
  cases hres : simdGo16 P buf pos fuel with
  | ok m =>
    obtain ⟨h1, h2, h3, h4⟩ := simdGo16_ok P buf fuel pos m hf hres
    left
    rcases Nat.lt_trichotomy m j with hmj | hmj | hmj
    · rw [hv m h1 hmj] at h4; cases h4
    · rw [hmj]
    · rw [h3 j hj hmj] at hs; cases hs
  | err n =>
    obtain ⟨h1, h2, h3⟩ := simdGo16_err P buf fuel pos n hf hres
    right
    refine ⟨n, rfl, h1, ?_, h2⟩
    by_contra hnj
    rw [h3 j hj (by omega)] at hs
    cases hs

/-- The 32-byte analogue of `simdGo16_clean`. -/
theorem simdGo32_clean (P : Nat → Bool) (buf : List Nat) (pos j fuel : Nat)
    (hf : buf.length - pos < 32 * fuel) (hj : pos ≤ j) (_hjl : j < buf.length)
    (hv : ∀ i, pos ≤ i → i < j → P (buf.getD i 0) = true)
    (hs : P (buf.getD j 0) = false) :
    simdGo32 P buf pos fuel = .ok j ∨
      ∃ n, simdGo32 P buf pos fuel = .err n ∧ pos ≤ n ∧ n ≤ j ∧ buf.length - n < 32 := by
  cases hres : simdGo32 P buf pos fuel with
  | ok m =>
    obtain ⟨h1, h2, h3, h4⟩ := simdGo32_ok P buf fuel pos m hf hres
    left
    rcases Nat.lt_trichotomy m j with hmj | hmj | hmj
    · rw [hv m h1 hmj] at h4; cases h4
    · rw [hmj]
    · rw [h3 j hj hmj] at hs; cases hs
  | err n =>
    obtain ⟨h1, h2, h3⟩ := simdGo32_err P buf fuel pos n hf hres
    right
    refine ⟨n, rfl, h1, ?_, h2⟩
    by_contra hnj
    rw [h3 j hj (by omega)] at hs
    cases hs

/-- The scalar classifier loop stops exactly at the first rejected byte. -/
theorem scanGo_stop (P : Nat → Bool) (buf : List Nat) :
    ∀ fuel pos j, buf.length - pos < fuel → pos ≤ j → j < buf.length →
      (∀ i, pos ≤ i → i < j → P (buf.getD i 0) = true) → P (buf.getD j 0) = false →
      scanGo P buf pos fuel = some j := by
  intro fuel
  induction fuel with
  | zero => intro pos j hf _ _ _ _; omega
  | succ fuel ih =>
    intro pos j hf hpj hjl hv hs
    have hpos : pos < buf.length := by omega
    simp only [scanGo, if_pos hpos]
    by_cases hP : P (buf.getD pos 0) = true
    · have hlt : pos < j := by
        rcases Nat.lt_or_ge pos j with h | h
        · exact h
        · have : pos = j := by omega
          rw [this] at hP; rw [hP] at hs; cases hs
      rw [if_pos hP]
      exact ih (pos + 1) j (by omega) (by omega) hjl (fun i h1 h2 => hv i (by omega) h2) hs
    · rw [if_neg hP]
      have : pos = j := by
        by_contra hne
        exact hP (hv pos (le_refl _) (by omega))
      rw [this]

/-- `parse_target` consumes exactly up to a stop byte that is invalid for
both the vectorized lane predicate and the scalar classifier, provided all
bytes before it are valid for both. -/
theorem parse_target_clean (buf : List Nat) (s j : Nat) (hsj : s ≤ j) (hjl : j < buf.length)
    (hv : ∀ i, s ≤ i → i < j →
      targetLane (buf.getD i 0) = true ∧ is_request_target_token (buf.getD i 0) = true)
    (hs32 : targetLane (buf.getD j 0) = false)
    (hssc : is_request_target_token (buf.getD j 0) = false) :
    parse_target buf s = .ok (.complete (j, (s, j))) := by
  rcases simdGo32_clean targetLane buf s j (buf.length + 1) (by omega) hsj hjl
      (fun i h1 h2 => (hv i h1 h2).1) hs32 with h32 | ⟨n, h32, hn1, hn2, hn3⟩
  · simp only [parse_target, parse_target_vectorized_avx2, h32]
  · rcases simdGo16_clean targetLane buf n j (buf.length + 1) (by omega) hn2 hjl
        (fun i h1 h2 => (hv i (by omega) h2).1) hs32 with h16 | ⟨n2, h16, hm1, hm2, hm3⟩
    · simp only [parse_target, parse_target_vectorized_avx2, parse_target_vectorized_ssse3,
        h32, h16]
    · have hscan := scanGo_stop is_request_target_token buf (buf.length + 1) n2 j (by omega)
        hm2 hjl (fun i h1 h2 => (hv i (by omega) h2).2) hssc
      simp only [parse_target, parse_target_vectorized_avx2, parse_target_vectorized_ssse3,
        h32, h16, hscan]

/-! ## Lane predicates versus scalar classifiers (exact characterizations) -/

/-- The table-based target lane accepts exactly `0x21`-`0x7e` minus `<`
(0x3c) and `>` (0x3e). -/
theorem targetLane_char :
    ∀ b, b < 256 → targetLane b = (33 ≤ b && b ≤ 126 && !(b == 60) && !(b == 62)) := by
  decide

/-- The table-based header-name lane agrees with the scalar `tchar`
classifier on every byte. -/
theorem nameLane_char : ∀ b, b < 256 → nameLane b = is_header_name_token b := by
  decide

/-- The header-value lane of the vectorized validators accepts exactly
`(0x1f < b < 0x80 ∨ b = 0x09) ∧ b ≠ 0x7f` — the signed-byte reading, which
rejects the obs-text range `0x80`-`0xff`. -/
theorem valueLane_char : ∀ b, b < 256 → valueLane b = sValue b := by
  decide

/-! ## Stage lemmas for the request-line decoders -/

/-- A masked low-`L`-bytes read of a word built from `c ++ l` sees exactly
the first `L` bytes of `c`. -/
theorem word_check (c l : List Nat) (L : Nat) (hL : L ≤ c.length)
    (hc : ∀ b ∈ c, b < 256) :
    wordOfBytes (c ++ l) % 256 ^ L = wordOfBytes (c.take L) := by
  have h1 : c ++ l = c.take L ++ (c.drop L ++ l) := by
    rw [← List.append_assoc, List.take_append_drop]
  rw [h1]
  have h2 := word_mod_head (c.take L) (c.drop L ++ l)
    (fun b hb => hc b (List.mem_of_mem_take hb))
  rwa [List.length_take, Nat.min_eq_left hL] at h2

/-- `matchMethodWord` on a word whose low bytes are a method name yields
that method, independently of the remaining bytes of the word. -/
theorem matchMethodWord_name (M : Method) (l : List Nat) :
    matchMethodWord (wordOfBytes (mname M ++ l)) = .ok (.complete (mlen M, M)) := by
  cases M <;>
    · unfold matchMethodWord
      repeat rw [word_check _ l _ (by decide) (by decide)]
      simp only [mname]
      norm_num [wordOfBytes_cons, wordOfBytes_nil, List.take, mlen, mname, List.length_cons]

/-- `parse_method` on a buffer starting with a method name, with at least 8
bytes present, recognizes the method and consumes its length. -/
theorem parse_method_name (M : Method) (rest : List Nat)
    (hlen : 8 ≤ (mname M ++ rest).length) :
    parse_method (mname M ++ rest) = .ok (.complete (mlen M, M)) := by
  have hml : (mname M).length ≤ 8 := by cases M <;> decide
  have htake : (mname M ++ rest).take 8 = mname M ++ rest.take (8 - (mname M).length) := by
    rw [List.take_append_eq_append_take, List.take_of_length_le hml]
  unfold parse_method
  rw [if_neg (by omega), htake, matchMethodWord_name]

/-- `parse_version` at a position where the remaining bytes are a version
literal followed by at least two further bytes: the literal is recognized
and exactly its length is consumed.  (No literal is a prefix of another, and
the two full-word comparisons cannot match an `HTTP/2`/`HTTP/3` window
because byte 5 differs.) -/
theorem parse_version_vname (buf : List Nat) (p : Nat) (v : Version) (rest : List Nat)
    (hdrop : buf.drop p = vname v ++ rest) (hrlen : 2 ≤ rest.length)
    (hrb : ∀ b ∈ rest, b < 256) :
    parse_version buf p = .ok (.complete (p + (vname v).length, v)) := by
  have hlen : buf.length - p = (vname v ++ rest).length := by
    rw [← hdrop, List.length_drop]
  have hvl : (vname v).length ≤ 8 := by cases v <;> decide
  have h8 : ¬ (buf.length - p < 8) := by
    rw [hlen, List.length_append]; cases v <;> simp [vname] <;> omega
  have htake : (buf.drop p).take 8 = vname v ++ rest.take (8 - (vname v).length) := by
    rw [hdrop, List.take_append_eq_append_take, List.take_of_length_le hvl]
  unfold parse_version
  rw [if_neg h8, htake]
  have hv256 : ∀ x ∈ vname v, x < 256 := by cases v <;> decide
  have hbnd : ∀ b ∈ vname v ++ rest.take (8 - (vname v).length), b < 256 := by
    intro b hb
    rcases List.mem_append.1 hb with h | h
    · exact hv256 b h
    · exact hrb b (List.mem_of_mem_take h)
  cases v
  · -- HTTP/1.0: the first (HTTP/1.1) comparison fails on the last byte
    have htk : rest.take (8 - (vname Version.h1_0).length) = [] := by
      simp [vname]
    rw [htk]
    rw [if_neg (by decide)]
    rw [if_pos (by simp [vname])]
    simp [vname]
  · -- HTTP/1.1: first comparison succeeds
    have htk : rest.take (8 - (vname Version.h1_1).length) = [] := by
      simp [vname]
    rw [htk]
    rw [if_pos (by simp [vname])]
    simp [vname]
  · -- HTTP/2: the 8-byte window is the literal plus two bytes of `rest`,
    -- the first of which is the CR; both full-八-byte comparisons fail at
    -- byte 5 (`'2'` vs `'1'`), then the masked 6-byte comparison succeeds.
    have hne1 : wordOfBytes (vname Version.h2 ++ rest.take 2) ≠ wordOfBytes (vname .h1_1) := by
      intro h
      have hl2 : (rest.take 2).length = 2 := by rw [List.length_take]; omega
      have heq := wordOfBytes_inj _ _ (by simp [vname, hl2]) (by simpa [vname] using hbnd)
        (by decide) h
      have h5 := congrArg (fun l => l.getD 5 0) heq
      simp [vname] at h5
    have hne0 : wordOfBytes (vname Version.h2 ++ rest.take 2) ≠ wordOfBytes (vname .h1_0) := by
      intro h
      have hl2 : (rest.take 2).length = 2 := by rw [List.length_take]; omega
      have heq := wordOfBytes_inj _ _ (by simp [vname, hl2]) (by simpa [vname] using hbnd)
        (by decide) h
      have h5 := congrArg (fun l => l.getD 5 0) heq
      simp [vname] at h5
    rw [show (8 - (vname Version.h2).length) = 2 by decide] at hbnd ⊢
    rw [if_neg hne1, if_neg hne0,
      if_pos (by rw [word_check _ _ 6 (by decide) (by decide)]; simp [vname])]
    simp [vname]
  · -- HTTP/3: like HTTP/2, with the 6-byte comparison against HTTP/2
    -- failing on byte 5 (`'3'` vs `'2'`).
    have hne1 : wordOfBytes (vname Version.h3 ++ rest.take 2) ≠ wordOfBytes (vname .h1_1) := by
      intro h
      have hl2 : (rest.take 2).length = 2 := by rw [List.length_take]; omega
      have heq := wordOfBytes_inj _ _ (by simp [vname, hl2]) (by simpa [vname] using hbnd)
        (by decide) h
      have h5 := congrArg (fun l => l.getD 5 0) heq
      simp [vname] at h5
    have hne0 : wordOfBytes (vname Version.h3 ++ rest.take 2) ≠ wordOfBytes (vname .h1_0) := by
      intro h
      have hl2 : (rest.take 2).length = 2 := by rw [List.length_take]; omega
      have heq := wordOfBytes_inj _ _ (by simp [vname, hl2]) (by simpa [vname] using hbnd)
        (by decide) h
      have h5 := congrArg (fun l => l.getD 5 0) heq
      simp [vname] at h5
    rw [show (8 - (vname Version.h3).length) = 2 by decide] at hbnd ⊢
    rw [if_neg hne1, if_neg hne0,
      if_neg (by rw [word_check _ _ 6 (by decide) (by decide)]; decide),
      if_pos (by rw [word_check _ _ 6 (by decide) (by decide)]; simp [vname])]
    simp [vname]

/-! ## Step lemmas for the modelled whitespace/newline helpers -/

theorem drw_sp (buf : List Nat) (p : Nat) (err : ParseError) (hp : p < buf.length)
    (hb : buf.getD p 0 = 32) :
    discard_required_whitespace buf p err = .ok (.complete (p + 1)) := by
  unfold discard_required_whitespace
  rw [if_pos hp, if_pos hb]

theorem drw_err (buf : List Nat) (p : Nat) (err : ParseError) (hp : p < buf.length)
    (hb : buf.getD p 0 ≠ 32) :
    discard_required_whitespace buf p err = .error err := by
  unfold discard_required_whitespace
  rw [if_pos hp, if_neg hb]

theorem drn_crlf (buf : List Nat) (p : Nat) (err : ParseError)
    (hp : p + 1 < buf.length) (h13 : buf.getD p 0 = 13) (h10 : buf.getD (p + 1) 0 = 10) :
    discard_required_newline buf p err = .ok (.complete (p + 2)) := by
  unfold discard_required_newline
  rw [if_pos (by omega), if_pos h13, if_pos hp, if_pos h10]

theorem drn_err (buf : List Nat) (p : Nat) (err : ParseError) (hp : p < buf.length)
    (hb : buf.getD p 0 ≠ 13) :
    discard_required_newline buf p err = .error err := by
  unfold discard_required_newline
  rw [if_pos hp, if_neg hb]

/-! ## `parse_headers` at the end-of-headers CRLF -/

/-- When exactly the terminating `\r\n` remains, `parse_headers` ends the
header block immediately with no headers: both vectorized name loops see
fewer than a window of bytes, the scalar classifier rejects the CR with an
empty name, and the CRLF lookahead in the error branch fires. -/
theorem parse_headers_crlf (buf : List Nat) (p cap : Nat) (hdrop : buf.drop p = [13, 10]) :
    parse_headers buf p cap = .complete p [] := by
  have hlen : buf.length - p = 2 := by
    have := congrArg List.length hdrop
    simpa [List.length_drop] using this
  have hp : p < buf.length := by omega
  have hb13 : buf.getD p 0 = 13 := by
    have := getD_drop buf p 0
    rw [hdrop] at this
    simpa using this.symm
  have havx : validate_header_name_avx2 buf p = .err p := by
    unfold validate_header_name_avx2
    simp only [simdGo32]
    rw [if_neg (by omega)]
  have hsse : validate_header_name_ssse3 buf p = .err p := by
    unfold validate_header_name_ssse3
    simp only [simdGo16]
    rw [if_neg (by omega)]
  have hscan : scanGo is_header_name_token buf p (buf.length + 1) = some p := by
    simp only [scanGo]
    rw [if_pos hp, if_neg (by rw [hb13]; decide)]
  have hname : get_header_name buf p = .error .headerName := by
    unfold get_header_name
    simp only [havx, hsse, hscan]
    simp
  unfold parse_headers
  simp only [parseHeadersGo, hname]
  rw [if_pos ⟨by omega, by simp [hdrop]⟩]

/-! ## Round trip of a header-less request line -/

/-- C8 (amended): for every method `M`, every non-empty target `t` whose
bytes lie in `0x21`-`0x7e` and avoid `<` (0x3c) and `>` (0x3e) — the two
bytes the vectorized target tables reject — and every version `v`, parsing
`{M} SP {t} SP {v} CRLF CRLF` on a fresh request returns `Complete` with
exactly that method, the target range covering `t`, that version, zero
headers, and a consumed count equal to the whole input length. -/
theorem C8_request_line_round_trip (M : Method) (v : Version) (t : List Nat)
    (ht : t ≠ []) (htc : ∀ b ∈ t, 33 ≤ b ∧ b ≤ 126 ∧ b ≠ 60 ∧ b ≠ 62) :
    parseFresh (reqLine M t v) =
      ({ data := reqLine M t v, complete := true, method := some M,
         target := some ((mname M).length + 1, (mname M).length + 1 + t.length),
         version := some v, headers := some ([] : List Header) },
       .complete (reqLine M t v).length) := by
  have hml : mlen M = (mname M).length := rfl
  have hlm1 : 3 ≤ (mname M).length := by cases M <;> decide
  have hlm2 : (mname M).length ≤ 7 := by cases M <;> decide
  have hvl1 : 6 ≤ (vname v).length := by cases v <;> decide
  have hvl2 : (vname v).length ≤ 8 := by cases v <;> decide
  have htl : 1 ≤ t.length := by
    cases t with
    | nil => cases ht rfl
    | cons a l => simp
  have hlen : (reqLine M t v).length =
      (mname M).length + 1 + t.length + 1 + (vname v).length + 4 := by
    simp [reqLine]; omega
  have hsplit1 : reqLine M t v =
      (mname M ++ [32]) ++ (t ++ ([32] ++ (vname v ++ [13, 10, 13, 10]))) := by
    simp [reqLine]
  have hsplit2 : reqLine M t v =
      ((mname M ++ [32]) ++ (t ++ [32])) ++ (vname v ++ [13, 10, 13, 10]) := by
    simp [reqLine]
  have hsplit3 : reqLine M t v =
      (((mname M ++ [32]) ++ (t ++ [32])) ++ (vname v ++ [13, 10])) ++ [13, 10] := by
    simp [reqLine]
  have hdrop1 : (reqLine M t v).drop ((mname M).length + 1) =
      t ++ ([32] ++ (vname v ++ [13, 10, 13, 10])) := by
    rw [hsplit1, show (mname M).length + 1 = (mname M ++ [32]).length by simp,
      List.drop_left]
  have hdrop3 : (reqLine M t v).drop ((mname M).length + 1 + t.length + 1) =
      vname v ++ [13, 10, 13, 10] := by
    rw [hsplit2, show (mname M).length + 1 + t.length + 1 =
      ((mname M ++ [32]) ++ (t ++ [32])).length by simp; omega, List.drop_left]
  have hdrop5 : (reqLine M t v).drop
      ((mname M).length + 1 + t.length + 1 + (vname v).length + 2) = [13, 10] := by
    rw [hsplit3, show (mname M).length + 1 + t.length + 1 + (vname v).length + 2 =
      (((mname M ++ [32]) ++ (t ++ [32])) ++ (vname v ++ [13, 10])).length by simp; omega,
      List.drop_left]
  have hb0 : (reqLine M t v).getD ((mname M).length) 0 = 32 := by
    rw [reqLine, getD_append_ge _ _ _ (le_refl _)]
    simp
  have hb1 : (reqLine M t v).getD ((mname M).length + 1 + t.length) 0 = 32 := by
    have h := getD_drop (reqLine M t v) ((mname M).length + 1) t.length
    rw [hdrop1, getD_append_ge t _ _ (le_refl _)] at h
    simpa using h.symm
  have hb13a : (reqLine M t v).getD
      ((mname M).length + 1 + t.length + 1 + (vname v).length) 0 = 13 := by
    have h := getD_drop (reqLine M t v) ((mname M).length + 1 + t.length + 1)
      ((vname v).length)
    rw [hdrop3, getD_append_ge _ _ _ (le_refl _)] at h
    simpa using h.symm
  have hb10a : (reqLine M t v).getD
      ((mname M).length + 1 + t.length + 1 + (vname v).length + 1) 0 = 10 := by
    have h := getD_drop (reqLine M t v) ((mname M).length + 1 + t.length + 1)
      ((vname v).length + 1)
    rw [hdrop3, getD_append_ge _ _ _ (by omega)] at h
    rw [show (vname v).length + 1 - (vname v).length = 1 by omega] at h
    have h2 : (mname M).length + 1 + t.length + 1 + ((vname v).length + 1) =
        (mname M).length + 1 + t.length + 1 + (vname v).length + 1 := by omega
    rw [h2] at h
    simpa using h.symm
  have hb13b : (reqLine M t v).getD
      ((mname M).length + 1 + t.length + 1 + (vname v).length + 2) 0 = 13 := by
    have h := getD_drop (reqLine M t v)
      ((mname M).length + 1 + t.length + 1 + (vname v).length + 2) 0
    rw [hdrop5] at h
    simpa using h.symm
  have hb10b : (reqLine M t v).getD
      ((mname M).length + 1 + t.length + 1 + (vname v).length + 3) 0 = 10 := by
    have h := getD_drop (reqLine M t v)
      ((mname M).length + 1 + t.length + 1 + (vname v).length + 2) 1
    rw [hdrop5] at h
    rw [show (mname M).length + 1 + t.length + 1 + (vname v).length + 2 + 1 =
      (mname M).length + 1 + t.length + 1 + (vname v).length + 3 by omega] at h
    simpa using h.symm
  have hcls : ∀ i, (mname M).length + 1 ≤ i → i < (mname M).length + 1 + t.length →
      targetLane ((reqLine M t v).getD i 0) = true ∧
        is_request_target_token ((reqLine M t v).getD i 0) = true := by
    intro i h1 h2
    have hg : (reqLine M t v).getD i 0 = t.getD (i - ((mname M).length + 1)) 0 := by
      have h := getD_drop (reqLine M t v) ((mname M).length + 1) (i - ((mname M).length + 1))
      rw [Nat.add_sub_cancel' h1] at h
      rw [← h, hdrop1, getD_append_lt _ _ _ (by omega)]
    have hmem : t.getD (i - ((mname M).length + 1)) 0 ∈ t := getD_is_mem t _ (by omega)
    obtain ⟨ha, hb', hc, hd⟩ := htc _ hmem
    constructor
    · rw [hg, targetLane_char _ (by omega)]
      simp only [Bool.and_eq_true, decide_eq_true_eq, Bool.not_eq_true', beq_eq_false_iff_ne]
      exact ⟨⟨⟨ha, hb'⟩, hc⟩, hd⟩
    · rw [hg]
      simp only [is_request_target_token, Bool.and_eq_true, decide_eq_true_eq]
      exact ⟨ha, hb'⟩
  have hm : parse_method (reqLine M t v) = .ok (.complete (mlen M, M)) := by
    have h8 : 8 ≤ (reqLine M t v).length := by rw [hlen]; omega
    rw [reqLine] at h8 ⊢
    exact parse_method_name M _ h8
  have hdw1 : discard_required_whitespace (reqLine M t v) (mlen M) .method =
      .ok (.complete ((mname M).length + 1)) :=
    drw_sp _ _ _ (by omega) hb0
  have htgt : parse_target (reqLine M t v) ((mname M).length + 1) =
      .ok (.complete ((mname M).length + 1 + t.length,
        ((mname M).length + 1, (mname M).length + 1 + t.length))) :=
    parse_target_clean _ _ _ (by omega) (by omega) hcls (by rw [hb1]; decide)
      (by rw [hb1]; decide)
  have hdw2 : discard_required_whitespace (reqLine M t v)
      ((mname M).length + 1 + t.length) .method =
      .ok (.complete ((mname M).length + 1 + t.length + 1)) :=
    drw_sp _ _ _ (by omega) hb1
  have hver : parse_version (reqLine M t v) ((mname M).length + 1 + t.length + 1) =
      .ok (.complete ((mname M).length + 1 + t.length + 1 + (vname v).length, v)) :=
    parse_version_vname _ _ v [13, 10, 13, 10] hdrop3 (by simp) (by decide)
  have hnl1 : discard_required_newline (reqLine M t v)
      ((mname M).length + 1 + t.length + 1 + (vname v).length) .newLine =
      .ok (.complete ((mname M).length + 1 + t.length + 1 + (vname v).length + 2)) := by
    have h := drn_crlf (reqLine M t v)
      ((mname M).length + 1 + t.length + 1 + (vname v).length) .newLine (by omega)
      hb13a (by rw [show (mname M).length + 1 + t.length + 1 + (vname v).length + 1 =
        (mname M).length + 1 + t.length + 1 + (vname v).length + 1 from rfl]; exact hb10a)
    exact h
  have hhdr : parse_headers (reqLine M t v)
      ((mname M).length + 1 + t.length + 1 + (vname v).length + 2) 96 =
      .complete ((mname M).length + 1 + t.length + 1 + (vname v).length + 2) [] :=
    parse_headers_crlf _ _ _ hdrop5
  have hnl2 : discard_required_newline (reqLine M t v)
      ((mname M).length + 1 + t.length + 1 + (vname v).length + 2) .newLine =
      .ok (.complete ((mname M).length + 1 + t.length + 1 + (vname v).length + 4)) := by
    have h := drn_crlf (reqLine M t v)
      ((mname M).length + 1 + t.length + 1 + (vname v).length + 2) .newLine (by omega)
      hb13b (by rw [show (mname M).length + 1 + t.length + 1 + (vname v).length + 2 + 1 =
        (mname M).length + 1 + t.length + 1 + (vname v).length + 3 by omega]; exact hb10b)
    rwa [show (mname M).length + 1 + t.length + 1 + (vname v).length + 2 + 2 =
      (mname M).length + 1 + t.length + 1 + (vname v).length + 4 by omega] at h
  simp only [parseFresh, H1Request.parse, hm, hdw1, htgt, hdw2, hver, hnl1, hhdr, hnl2]
  rw [show (reqLine M t v).length =
    (mname M).length + 1 + t.length + 1 + (vname v).length + 4 from hlen]

/-! ## Bytes read out of a bounded buffer are bounded -/

theorem getD_lt256 (buf : List Nat) (hb : ∀ b ∈ buf, b < 256) (i : Nat) :
    buf.getD i 0 < 256 := by
  by_cases h : i < buf.length
  · exact hb _ (getD_is_mem buf i h)
  · rw [List.getD_eq_default _ _ (by omega)]
    omega

/-! ## The checked loops perform exactly the guarded loops' loads -/

theorem simdGoChecked16_eq (P : Nat → Bool) (buf : List Nat) :
    ∀ fuel pos, simdGoChecked16 P buf pos fuel = some (simdGo16 P buf pos fuel) := by
  intro fuel
  induction fuel with
  | zero => intro pos; rfl
  | succ fuel ih =>
    intro pos
    by_cases hg : 16 ≤ buf.length - pos
    · have hload : loadWindow 16 buf pos = some ((buf.drop pos).take 16) := by
        unfold loadWindow
        rw [if_pos (by omega)]
      simp only [simdGoChecked16, simdGo16, if_pos hg, hload]
      by_cases hk : leadingValid P ((buf.drop pos).take 16) = 16
      · simp only [if_pos hk]
        exact ih (pos + 16)
      · simp only [if_neg hk]
    · simp only [simdGoChecked16, simdGo16, if_neg hg]

theorem simdGoChecked32_eq (P : Nat → Bool) (buf : List Nat) :
    ∀ fuel pos, simdGoChecked32 P buf pos fuel = some (simdGo32 P buf pos fuel) := by
  intro fuel
  induction fuel with
  | zero => intro pos; rfl
  | succ fuel ih =>
    intro pos
    by_cases hg : 32 ≤ buf.length - pos
    · have hload : loadWindow 32 buf pos = some ((buf.drop pos).take 32) := by
        unfold loadWindow
        rw [if_pos (by omega)]
      simp only [simdGoChecked32, simdGo32, if_pos hg, hload]
      by_cases hk : leadingValid P ((buf.drop pos).take 32) = 32
      · simp only [if_pos hk]
        exact ih (pos + 32)
      · simp only [if_neg hk]
    · simp only [simdGoChecked32, simdGo32, if_neg hg]

/-! ## Claim theorems -/

/-- C9: every wide load of every vectorized validator loop is guarded by a
check that a full window of bytes remains, so no load ever reads at or past
the end of the input: the bounds-checked variants (whose loads fail with
`none` on any out-of-range access) never fail and agree with the unchecked
validators on every buffer and start position. -/
theorem C9_validator_loads_in_bounds (buf : List Nat) (pos : Nat) :
    checked_parse_target_vectorized_avx2 buf pos = some (parse_target_vectorized_avx2 buf pos) ∧
    checked_parse_target_vectorized_ssse3 buf pos = some (parse_target_vectorized_ssse3 buf pos) ∧
    checked_validate_header_name_avx2 buf pos = some (validate_header_name_avx2 buf pos) ∧
    checked_validate_header_name_ssse3 buf pos = some (validate_header_name_ssse3 buf pos) ∧
    checked_validate_header_value_avx2 buf pos = some (validate_header_value_avx2 buf pos) ∧
    checked_validate_header_value_ssse3 buf pos = some (validate_header_value_ssse3 buf pos) :=
  ⟨simdGoChecked32_eq targetLane buf _ pos, simdGoChecked16_eq targetLane buf _ pos,
   simdGoChecked32_eq nameLane buf _ pos, simdGoChecked16_eq nameLane buf _ pos,
   simdGoChecked32_eq valueLane buf _ pos, simdGoChecked16_eq valueLane buf _ pos⟩

/-- C3 (counterexample): on a window of obs-text bytes `0x80`, which the
scalar header-value class accepts (`is_header_value_token 0x80 = true`, so
the longest valid prefix of the 16-byte buffer is all 16 bytes), both
batched header-value validators stop immediately and report a completed
scan at offset 0: batched consumption is 0, not 16. -/
theorem C3_obs_text_counterexample :
    validate_header_value_ssse3 (List.replicate 16 128) 0 = .ok 0 ∧
    validate_header_value_avx2 (List.replicate 32 128) 0 = .ok 0 ∧
    is_header_value_token 128 = true ∧
    leadingValid is_header_value_token (List.replicate 16 128) = 16 := by
  decide

/-- C3 (amended): the batched header-value validators (AVX2 and SSSE3)
consume exactly according to the signed-byte class `sValue`
(`(0x1f < b < 0x80 ∨ b = 0x09) ∧ b ≠ 0x7f`, obs-text rejected): when they
report `Ok n` they stopped exactly at the first byte of the input failing
`sValue`, with all bytes before `n` (from `pos`) satisfying it; when they
report `Err n`, every byte consumed up to `n` satisfies `sValue` and fewer
than a full window of bytes remains after `n` for the scalar tail. -/
theorem C3_batched_value_validators_signed_class (buf : List Nat) (pos : Nat)
    (hb : ∀ b ∈ buf, b < 256) :
    (∀ n, validate_header_value_avx2 buf pos = .ok n →
      pos ≤ n ∧ n < buf.length ∧
        (∀ i, pos ≤ i → i < n → sValue (buf.getD i 0) = true) ∧
        sValue (buf.getD n 0) = false) ∧
    (∀ n, validate_header_value_avx2 buf pos = .err n →
      pos ≤ n ∧ buf.length - n < 32 ∧
        (∀ i, pos ≤ i → i < n → sValue (buf.getD i 0) = true)) ∧
    (∀ n, validate_header_value_ssse3 buf pos = .ok n →
      pos ≤ n ∧ n < buf.length ∧
        (∀ i, pos ≤ i → i < n → sValue (buf.getD i 0) = true) ∧
        sValue (buf.getD n 0) = false) ∧
    (∀ n, validate_header_value_ssse3 buf pos = .err n →
      pos ≤ n ∧ buf.length - n < 16 ∧
        (∀ i, pos ≤ i → i < n → sValue (buf.getD i 0) = true)) := by
  have hv : ∀ i, valueLane (buf.getD i 0) = sValue (buf.getD i 0) :=
    fun i => valueLane_char _ (getD_lt256 buf hb i)
  refine ⟨?_, ?_, ?_, ?_⟩
  · intro n h
    obtain ⟨h1, h2, h3, h4⟩ := simdGo32_ok valueLane buf (buf.length + 1) pos n (by omega) h
    exact ⟨h1, h2, fun i hi1 hi2 => by rw [← hv]; exact h3 i hi1 hi2, by rw [← hv]; exact h4⟩
  · intro n h
    obtain ⟨h1, h2, h3⟩ := simdGo32_err valueLane buf (buf.length + 1) pos n (by omega) h
    exact ⟨h1, h2, fun i hi1 hi2 => by rw [← hv]; exact h3 i hi1 hi2⟩
  · intro n h
    obtain ⟨h1, h2, h3, h4⟩ := simdGo16_ok valueLane buf (buf.length + 1) pos n (by omega) h
    exact ⟨h1, h2, fun i hi1 hi2 => by rw [← hv]; exact h3 i hi1 hi2, by rw [← hv]; exact h4⟩
  · intro n h
    obtain ⟨h1, h2, h3⟩ := simdGo16_err valueLane buf (buf.length + 1) pos n (by omega) h
    exact ⟨h1, h2, fun i hi1 hi2 => by rw [← hv]; exact h3 i hi1 hi2⟩

/-- Witness for `C3_batched_value_validators_signed_class` at the concrete
buffer `"az" ++ [0x0d] ++ "x"`: the SSSE3 path is below a window (`Err 0`),
and the characterization holds with every hypothesis discharged. -/
theorem C3_signed_class_witness :
    (∀ b ∈ ([97, 122, 13, 120] : List Nat), b < 256) ∧
    (∀ n, validate_header_value_ssse3 [97, 122, 13, 120] 0 = .err n →
      0 ≤ n ∧ ([97, 122, 13, 120] : List Nat).length - n < 16 ∧
        (∀ i, 0 ≤ i → i < n → sValue (([97, 122, 13, 120] : List Nat).getD i 0) = true)) := by
  constructor
  · decide
  · exact (C3_batched_value_validators_signed_class [97, 122, 13, 120] 0 (by decide)).2.2.2

/-- C1: evaluating the parser on `GET / HTTP/1.1\r\n\r\n` followed by 16
buffered trailing bytes.  With at least one SSSE3 window (16 bytes)
remaining at the end-of-headers position, the vectorized header-name
validator returns a *completed empty name* instead of an error, the CRLF
check in the error branch of `parse_headers` is bypassed, and the `:` test
fails on the CR: `parse` returns `Err(HeaderName)` instead of
`Complete(18)`.  Without trailing bytes the scalar path runs and the same
request completes at 18. -/
theorem C1_crlf_termination_broken_on_simd_path :
    (parseFresh crlfWithTrailing).2 = .error .headerName ∧
    parseFresh [71, 69, 84, 32, 47, 32, 72, 84, 84, 80, 47, 49, 46, 49, 13, 10, 13, 10] =
      ({ data := [71, 69, 84, 32, 47, 32, 72, 84, 84, 80, 47, 49, 46, 49, 13, 10, 13, 10],
         complete := true, method := some .get, target := some (4, 5),
         version := some .h1_1, headers := some [] }, .complete 18) := by
  constructor
  · decide
  · decide

/-- C2: evaluating the parser on a request presenting 97 well-formed
headers.  The 96-entry header array supplied by `H1Request::parse`
overflows at the 97th `headers[idx].write(..)` — an out-of-bounds panic
(`crash`), not a recoverable `Capacity` error (no such variant exists in
`ParseError`). -/
theorem C2_capacity_overflow_is_oob_panic :
    (parseFresh capacityInput).2 = .crash := by
  decide

/-- C7: evaluating `take_until` on the buffer `"GET"` with predicate
`b == SP`: the end of the buffer is reached with the non-empty accumulated
slice `"GET"`, but the source discards the slice (`self.slice()`) and
returns `None`. -/
theorem C7_take_until_drops_slice_at_eob :
    RawRequest.take_until ⟨[71, 69, 84], 0⟩ (fun b => b == 32) =
      (none, ⟨[], 0⟩) := by
  decide

/-- C8 (counterexample): `GET /<aaaaaaaaaaaa HTTP/1.1\r\n\r\n` — a
request line whose target `"/<aaaaaaaaaaaa"` is non-empty and consists only
of bytes in `0x21`-`0x7e`, yet with 27 bytes remaining at the target the
SSSE3 window stops at `<` (0x3c, rejected by the vectorized target table),
the target completes early as `"/"`, and the required SP is not found:
parse returns an error instead of `Complete`. -/
theorem C8_target_lt_counterexample :
    ([47, 60, 97, 97, 97, 97, 97, 97, 97, 97, 97, 97, 97, 97] : List Nat) ≠ [] ∧
    (∀ b ∈ ([47, 60, 97, 97, 97, 97, 97, 97, 97, 97, 97, 97, 97, 97] : List Nat),
      33 ≤ b ∧ b ≤ 126) ∧
    (parseFresh (reqLine .get [47, 60, 97, 97, 97, 97, 97, 97, 97, 97, 97, 97, 97, 97] .h1_1)).2 =
      .error .method := by
  refine ⟨by decide, by decide, by decide⟩

/-! ## Full characterization of the method decoder -/

/-- A masked comparison of the loaded 8-byte word against a method constant
succeeds exactly when the corresponding prefix of the buffer is that
method's name. -/
theorem take_word_iff (buf : List Nat) (hb : ∀ b ∈ buf, b < 256) (h8 : 8 ≤ buf.length)
    (M : Method) (L : Nat) (hL : L = mlen M) :
    (wordOfBytes (buf.take 8) % 256 ^ L = wordOfBytes (mname M)) ↔
      buf.take L = mname M := by
  subst hL
  have hm8 : mlen M ≤ 8 := by cases M <;> decide
  have hlc : ((buf.take 8).take (mlen M)).length = mlen M := by
    rw [List.take_take, List.length_take]
    omega
  have h1 : buf.take 8 = (buf.take 8).take (mlen M) ++ (buf.take 8).drop (mlen M) :=
    (List.take_append_drop _ _).symm
  have h2 : (buf.take 8).take (mlen M) = buf.take (mlen M) := by
    rw [List.take_take]
    congr 1
    omega
  have hmod : wordOfBytes (buf.take 8) % 256 ^ (mlen M) = wordOfBytes (buf.take (mlen M)) := by
    have h3 := word_mod_head ((buf.take 8).take (mlen M)) ((buf.take 8).drop (mlen M))
      (fun b hb' => hb b (List.mem_of_mem_take (List.mem_of_mem_take hb')))
    rwa [List.take_append_drop, hlc, h2] at h3
  rw [hmod]
  constructor
  · intro h
    refine wordOfBytes_inj _ _ ?_ (fun b hb' => hb b (List.mem_of_mem_take hb')) ?_ h
    · rw [List.length_take]
      cases M <;> (simp [mname, mlen]; omega)
    · cases M <;> decide
  · intro h
    rw [h]

/-- Two distinct methods cannot both be prefixes of the same buffer: their
names disagree within the length of the shorter. -/
theorem method_prefix_clash (buf : List Nat) (M M' : Method) (hne : M ≠ M')
    (h1 : buf.take (mlen M) = mname M) (h2 : buf.take (mlen M') = mname M') : False := by
  have e1 : (mname M).take (mlen M') = buf.take (min (mlen M) (mlen M')) := by
    rw [← h1, List.take_take, Nat.min_comm]
  have e2 : (mname M').take (mlen M) = buf.take (min (mlen M) (mlen M')) := by
    rw [← h2, List.take_take]
  have e3 : (mname M).take (mlen M') = (mname M').take (mlen M) := e1.trans e2.symm
  revert e3 hne
  cases M <;> cases M' <;> decide

/-- When the first `mlen M` bytes of an 8-byte-or-longer buffer are the
name of method `M`, `parse_method` completes with `(mlen M, M)`. -/
theorem parse_method_hit (buf : List Nat) (hb : ∀ b ∈ buf, b < 256)
    (h8 : 8 ≤ buf.length) (M : Method) (hT : buf.take (mlen M) = mname M) :
    parse_method buf = .ok (.complete (mlen M, M)) := by
  have hiff := take_word_iff buf hb h8
  have hclash : ∀ M' : Method, M' ≠ M → ¬ (buf.take (mlen M') = mname M') :=
    fun M' hne hT' => method_prefix_clash buf M' M hne hT' hT
  unfold parse_method matchMethodWord
  rw [if_neg (by omega)]
  cases M with
  | get =>
    rw [if_pos ((hiff .get 3 rfl).mpr hT)]
    rfl
  | put =>
    rw [if_neg (fun hc => hclash .get (by decide) ((hiff .get 3 rfl).mp hc)),
      if_pos ((hiff .put 3 rfl).mpr hT)]
    rfl
  | post =>
    rw [if_neg (fun hc => hclash .get (by decide) ((hiff .get 3 rfl).mp hc)),
      if_neg (fun hc => hclash .put (by decide) ((hiff .put 3 rfl).mp hc)),
      if_pos ((hiff .post 4 rfl).mpr hT)]
    rfl
  | head =>
    rw [if_neg (fun hc => hclash .get (by decide) ((hiff .get 3 rfl).mp hc)),
      if_neg (fun hc => hclash .put (by decide) ((hiff .put 3 rfl).mp hc)),
      if_neg (fun hc => hclash .post (by decide) ((hiff .post 4 rfl).mp hc)),
      if_pos ((hiff .head 4 rfl).mpr hT)]
    rfl
  | trace =>
    rw [if_neg (fun hc => hclash .get (by decide) ((hiff .get 3 rfl).mp hc)),
      if_neg (fun hc => hclash .put (by decide) ((hiff .put 3 rfl).mp hc)),
      if_neg (fun hc => hclash .post (by decide) ((hiff .post 4 rfl).mp hc)),
      if_neg (fun hc => hclash .head (by decide) ((hiff .head 4 rfl).mp hc)),
      if_pos ((hiff .trace 5 rfl).mpr hT)]
    rfl
  | delete =>
    rw [if_neg (fun hc => hclash .get (by decide) ((hiff .get 3 rfl).mp hc)),
      if_neg (fun hc => hclash .put (by decide) ((hiff .put 3 rfl).mp hc)),
      if_neg (fun hc => hclash .post (by decide) ((hiff .post 4 rfl).mp hc)),
      if_neg (fun hc => hclash .head (by decide) ((hiff .head 4 rfl).mp hc)),
      if_neg (fun hc => hclash .trace (by decide) ((hiff .trace 5 rfl).mp hc)),
      if_pos ((hiff .delete 6 rfl).mpr hT)]
    rfl
  | options =>
    rw [if_neg (fun hc => hclash .get (by decide) ((hiff .get 3 rfl).mp hc)),
      if_neg (fun hc => hclash .put (by decide) ((hiff .put 3 rfl).mp hc)),
      if_neg (fun hc => hclash .post (by decide) ((hiff .post 4 rfl).mp hc)),
      if_neg (fun hc => hclash .head (by decide) ((hiff .head 4 rfl).mp hc)),
      if_neg (fun hc => hclash .trace (by decide) ((hiff .trace 5 rfl).mp hc)),
      if_neg (fun hc => hclash .delete (by decide) ((hiff .delete 6 rfl).mp hc)),
      if_pos ((hiff .options 7 rfl).mpr hT)]
    rfl
  | connect =>
    rw [if_neg (fun hc => hclash .get (by decide) ((hiff .get 3 rfl).mp hc)),
      if_neg (fun hc => hclash .put (by decide) ((hiff .put 3 rfl).mp hc)),
      if_neg (fun hc => hclash .post (by decide) ((hiff .post 4 rfl).mp hc)),
      if_neg (fun hc => hclash .head (by decide) ((hiff .head 4 rfl).mp hc)),
      if_neg (fun hc => hclash .trace (by decide) ((hiff .trace 5 rfl).mp hc)),
      if_neg (fun hc => hclash .delete (by decide) ((hiff .delete 6 rfl).mp hc)),
      if_neg (fun hc => hclash .options (by decide) ((hiff .options 7 rfl).mp hc)),
      if_pos ((hiff .connect 7 rfl).mpr hT)]
    rfl

/-- When no method name is a prefix of an 8-byte-or-longer buffer,
`parse_method` returns the `Method` error. -/
theorem parse_method_miss (buf : List Nat) (hb : ∀ b ∈ buf, b < 256)
    (h8 : 8 ≤ buf.length) (hT : ∀ M : Method, buf.take (mlen M) ≠ mname M) :
    parse_method buf = .error .method := by
  have hiff := take_word_iff buf hb h8
  unfold parse_method matchMethodWord
  rw [if_neg (by omega),
    if_neg (fun hc => hT .get ((hiff .get 3 rfl).mp hc)),
    if_neg (fun hc => hT .put ((hiff .put 3 rfl).mp hc)),
    if_neg (fun hc => hT .post ((hiff .post 4 rfl).mp hc)),
    if_neg (fun hc => hT .head ((hiff .head 4 rfl).mp hc)),
    if_neg (fun hc => hT .trace ((hiff .trace 5 rfl).mp hc)),
    if_neg (fun hc => hT .delete ((hiff .delete 6 rfl).mp hc)),
    if_neg (fun hc => hT .options ((hiff .options 7 rfl).mp hc)),
    if_neg (fun hc => hT .connect ((hiff .connect 7 rfl).mp hc))]

/-- C6: the method decoder returns `Partial` on every buffer shorter than 8
bytes; on buffers of at least 8 bytes it returns `Complete (L, M)` exactly
when `L` is the length of method `M`'s name and the first `L` bytes equal
that name, and returns the `Method` error when no method name is a prefix. -/
theorem C6_parse_method_characterization (buf : List Nat) (hb : ∀ b ∈ buf, b < 256) :
    (buf.length < 8 → parse_method buf = .ok .pending) ∧
    (8 ≤ buf.length →
      (∀ L M, parse_method buf = .ok (.complete (L, M)) ↔
        (L = mlen M ∧ buf.take (mlen M) = mname M)) ∧
      ((∀ M : Method, buf.take (mlen M) ≠ mname M) → parse_method buf = .error .method)) := by
  refine ⟨fun hlt => by unfold parse_method; rw [if_pos hlt], fun h8 => ⟨?_, ?_⟩⟩
  · intro L M
    constructor
    · intro hres
      by_cases hT : ∃ M' : Method, buf.take (mlen M') = mname M'
      · obtain ⟨M', hT'⟩ := hT
        rw [parse_method_hit buf hb h8 M' hT'] at hres
        have hinj : mlen M' = L ∧ M' = M := by
          cases hres
          exact ⟨rfl, rfl⟩
        obtain ⟨h1, h2⟩ := hinj
        subst h2
        exact ⟨h1.symm, hT'⟩
      · push_neg at hT
        rw [parse_method_miss buf hb h8 hT] at hres
        cases hres
    · rintro ⟨hL, hT⟩
      subst hL
      exact parse_method_hit buf hb h8 M hT
  · exact parse_method_miss buf hb h8

/-- Witness for `C6_parse_method_characterization` at the 8-byte buffer
`"GET / HT"`: shorter-than-8 gives `Partial` (checked on a prefix), the
`GET` match is complete, and an unknown token errors. -/
theorem C6_parse_method_witness :
    parse_method [71, 69, 84, 32, 47, 32, 72, 84] = .ok (.complete (3, .get)) ∧
    parse_method [70, 79, 79, 32, 47, 32, 72, 84] = .error .method := by
  constructor
  · exact ((C6_parse_method_characterization [71, 69, 84, 32, 47, 32, 72, 84]
      (by decide)).2 (by decide)).1 3 .get |>.mpr ⟨by decide, by decide⟩
  · exact ((C6_parse_method_characterization [70, 79, 79, 32, 47, 32, 72, 84]
      (by decide)).2 (by decide)).2 (fun M => by cases M <;> decide)

/-! ## Version decoder failure characterizations -/

theorem wordOfBytes_mod256 (l : List Nat) (hne : l ≠ []) (h0 : l.getD 0 0 < 256) :
    wordOfBytes l % 256 = l.getD 0 0 := by
  cases l with
  | nil => cases hne rfl
  | cons b t =>
    simp only [wordOfBytes_cons, List.getD_cons_zero] at h0 ⊢
    omega

theorem word_take_mod (l : List Nat) (hb : ∀ b ∈ l, b < 256) (k n : Nat) (hk : k ≤ n)
    (hkl : k ≤ l.length) :
    wordOfBytes (l.take n) % 256 ^ k = wordOfBytes (l.take k) := by
  have hlc : ((l.take n).take k).length = k := by
    simp only [List.take_take, List.length_take]
    omega
  have h3 := word_mod_head ((l.take n).take k) ((l.take n).drop k)
    (fun b hb' => hb b (List.mem_of_mem_take (List.mem_of_mem_take hb')))
  rw [List.take_append_drop, hlc] at h3
  rwa [List.take_take, Nat.min_eq_left hk] at h3

/-- When the first remaining byte is not `H` (0x48) and at least 8 bytes
remain, no version literal can match and `parse_version` errors. -/
theorem parse_version_err_first (buf : List Nat) (p : Nat)
    (h8 : ¬ (buf.length - p < 8)) (hb : buf.getD p 0 ≠ 72) (hlt : buf.getD p 0 < 256) :
    parse_version buf p = .error .version := by
  have hwlen : ((buf.drop p).take 8).length = 8 := by
    rw [List.length_take, List.length_drop]
    omega
  have hw0 : ((buf.drop p).take 8).getD 0 0 = buf.getD p 0 := by
    rw [getD_take _ _ _ (by omega), getD_drop]
    simp
  have hmm : wordOfBytes ((buf.drop p).take 8) % 256 = buf.getD p 0 := by
    rw [wordOfBytes_mod256 _ (fun hh => by rw [hh] at hwlen; simp at hwlen)
      (by rw [hw0]; exact hlt), hw0]
  unfold parse_version
  rw [if_neg h8,
    if_neg (fun hc => hb (by
      have h2 := congrArg (fun x => x % 256) hc
      simp only at h2
      rw [hmm, show wordOfBytes (vname .h1_1) % 256 = 72 from by decide] at h2
      exact h2)),
    if_neg (fun hc => hb (by
      have h2 := congrArg (fun x => x % 256) hc
      simp only at h2
      rw [hmm, show wordOfBytes (vname .h1_0) % 256 = 72 from by decide] at h2
      exact h2)),
    if_neg (fun hc => hb (by
      have h2 := congrArg (fun x => x % 256) hc
      simp only at h2
      rw [Nat.mod_mod_of_dvd _ (by norm_num), hmm,
        show wordOfBytes (vname .h2) % 256 = 72 from by decide] at h2
      exact h2)),
    if_neg (fun hc => hb (by
      have h2 := congrArg (fun x => x % 256) hc
      simp only at h2
      rw [Nat.mod_mod_of_dvd _ (by norm_num), hmm,
        show wordOfBytes (vname .h3) % 256 = 72 from by decide] at h2
      exact h2))]

/-- `parse_version` on remaining input `t ++ s2 ++ {v} CRLF CRLF` with `t`
made of printable non-whitespace bytes and `s2` non-empty whitespace:
either it errors, or it completes at a position whose byte is not CR (so
the newline check that follows in the driver must fail). -/
theorem parse_version_garbled (buf : List Nat) (p : Nat) (t s2 : List Nat) (v : Version)
    (hdrop : buf.drop p = t ++ (s2 ++ (vname v ++ [13, 10, 13, 10])))
    (ht : ∀ b ∈ t, 33 ≤ b ∧ b ≤ 126) (hs2 : ∀ b ∈ s2, b = 32 ∨ b = 9) (hs2n : s2 ≠ []) :
    parse_version buf p = .error .version ∨
      ∃ q v2, parse_version buf p = .ok (.complete (q, v2)) ∧ q < buf.length ∧
        buf.getD q 0 ≠ 13 := by
  have hs2pos : 0 < s2.length := List.length_pos.mpr hs2n
  have hvl1 : 6 ≤ (vname v).length := by cases v <;> decide
  have hvl2 : (vname v).length ≤ 8 := by cases v <;> decide
  have hv256 : ∀ x ∈ vname v, x < 256 := by cases v <;> decide
  have hRlen : buf.length - p = t.length + (s2.length + ((vname v).length + 4)) := by
    have hx := congrArg List.length hdrop
    simp at hx
    omega
  have h8 : ¬ (buf.length - p < 8) := by omega
  have hbR : ∀ b ∈ t ++ (s2 ++ (vname v ++ [13, 10, 13, 10])), b < 256 := by
    intro b hb
    rcases List.mem_append.1 hb with h | h
    · have := ht b h; omega
    · rcases List.mem_append.1 h with h | h
      · have := hs2 b h; omega
      · rcases List.mem_append.1 h with h | h
        · exact hv256 b h
        · simp at h
          rcases h with h | h <;> omega
  have hRL : (t ++ (s2 ++ (vname v ++ [13, 10, 13, 10]))).length =
      t.length + (s2.length + ((vname v).length + 4)) := by
    simp
  have hbyte : ∀ k, k ≤ t.length → buf.getD (p + k) 0 ≠ 13 := by
    intro k hk
    have hx : buf.getD (p + k) 0 =
        (t ++ (s2 ++ (vname v ++ [13, 10, 13, 10]))).getD k 0 := by
      rw [← getD_drop, hdrop]
    rcases Nat.lt_or_ge k t.length with hlt | hge
    · rw [hx, getD_append_lt _ _ _ hlt]
      have := ht _ (getD_is_mem t k hlt)
      omega
    · have hk0 : k = t.length := by omega
      rw [hx, hk0, getD_append_ge t _ _ (le_refl _), Nat.sub_self,
        getD_append_lt s2 _ _ hs2pos]
      have := hs2 _ (getD_is_mem s2 0 hs2pos)
      omega
  have htake8len : ((t ++ (s2 ++ (vname v ++ [13, 10, 13, 10]))).take 8).length = 8 := by
    rw [List.length_take]
    omega
  unfold parse_version
  rw [if_neg h8, hdrop]
  by_cases h1 : wordOfBytes ((t ++ (s2 ++ (vname v ++ [13, 10, 13, 10]))).take 8) =
      wordOfBytes (vname .h1_1)
  · have hlist : (t ++ (s2 ++ (vname v ++ [13, 10, 13, 10]))).take 8 = vname .h1_1 :=
      wordOfBytes_inj _ _ (by rw [htake8len]; decide)
        (fun b hb => hbR b (List.mem_of_mem_take hb)) (by decide) h1
    have ht8 : 8 ≤ t.length := by
      by_contra hlt
      push_neg at hlt
      have hx : ((t ++ (s2 ++ (vname v ++ [13, 10, 13, 10]))).take 8).getD t.length 0 =
          s2.getD 0 0 := by
        rw [getD_take _ _ _ (by omega), getD_append_ge t _ _ (le_refl _), Nat.sub_self,
          getD_append_lt s2 _ _ hs2pos]
      rw [hlist] at hx
      have hl11 : ∀ i, i < 8 →
          (vname Version.h1_1).getD i 0 ≠ 32 ∧ (vname Version.h1_1).getD i 0 ≠ 9 := by
        decide
      obtain ⟨hA, hB⟩ := hl11 t.length (by omega)
      have := hs2 _ (getD_is_mem s2 0 hs2pos)
      omega
    right
    exact ⟨p + 8, .h1_1, by rw [if_pos h1], by omega, hbyte 8 ht8⟩
  · by_cases h2 : wordOfBytes ((t ++ (s2 ++ (vname v ++ [13, 10, 13, 10]))).take 8) =
        wordOfBytes (vname .h1_0)
    · have hlist : (t ++ (s2 ++ (vname v ++ [13, 10, 13, 10]))).take 8 = vname .h1_0 :=
        wordOfBytes_inj _ _ (by rw [htake8len]; decide)
          (fun b hb => hbR b (List.mem_of_mem_take hb)) (by decide) h2
      have ht8 : 8 ≤ t.length := by
        by_contra hlt
        push_neg at hlt
        have hx : ((t ++ (s2 ++ (vname v ++ [13, 10, 13, 10]))).take 8).getD t.length 0 =
            s2.getD 0 0 := by
          rw [getD_take _ _ _ (by omega), getD_append_ge t _ _ (le_refl _), Nat.sub_self,
            getD_append_lt s2 _ _ hs2pos]
        rw [hlist] at hx
        have hl10 : ∀ i, i < 8 →
            (vname Version.h1_0).getD i 0 ≠ 32 ∧ (vname Version.h1_0).getD i 0 ≠ 9 := by
          decide
        obtain ⟨hA, hB⟩ := hl10 t.length (by omega)
        have := hs2 _ (getD_is_mem s2 0 hs2pos)
        omega
      right
      exact ⟨p + 8, .h1_0, by rw [if_neg h1, if_pos h2], by omega, hbyte 8 ht8⟩
    · have hmask := word_take_mod (t ++ (s2 ++ (vname v ++ [13, 10, 13, 10]))) hbR 6 8
        (by omega) (by rw [hRL]; omega)
      by_cases h3 : wordOfBytes ((t ++ (s2 ++ (vname v ++ [13, 10, 13, 10]))).take 8) % 256 ^ 6 =
          wordOfBytes (vname .h2)
      · have hlist : (t ++ (s2 ++ (vname v ++ [13, 10, 13, 10]))).take 6 = vname .h2 := by
          refine wordOfBytes_inj _ _ ?_ (fun b hb => hbR b (List.mem_of_mem_take hb))
            (by decide) ?_
          · rw [List.length_take, hRL]
            have : (vname Version.h2).length = 6 := by decide
            omega
          · rw [← hmask]; exact h3
        have ht6 : 6 ≤ t.length := by
          by_contra hlt
          push_neg at hlt
          have hx : ((t ++ (s2 ++ (vname v ++ [13, 10, 13, 10]))).take 6).getD t.length 0 =
              s2.getD 0 0 := by
            rw [getD_take _ _ _ (by omega), getD_append_ge t _ _ (le_refl _), Nat.sub_self,
              getD_append_lt s2 _ _ hs2pos]
          rw [hlist] at hx
          have hl2 : ∀ i, i < 6 →
              (vname Version.h2).getD i 0 ≠ 32 ∧ (vname Version.h2).getD i 0 ≠ 9 := by
            decide
          obtain ⟨hA, hB⟩ := hl2 t.length (by omega)
          have := hs2 _ (getD_is_mem s2 0 hs2pos)
          omega
        right
        exact ⟨p + 6, .h2, by rw [if_neg h1, if_neg h2, if_pos h3], by omega, hbyte 6 ht6⟩
      · by_cases h4 : wordOfBytes ((t ++ (s2 ++ (vname v ++ [13, 10, 13, 10]))).take 8) % 256 ^ 6 =
            wordOfBytes (vname .h3)
        · have hlist : (t ++ (s2 ++ (vname v ++ [13, 10, 13, 10]))).take 6 = vname .h3 := by
            refine wordOfBytes_inj _ _ ?_ (fun b hb => hbR b (List.mem_of_mem_take hb))
              (by decide) ?_
            · rw [List.length_take, hRL]
              have : (vname Version.h3).length = 6 := by decide
              omega
            · rw [← hmask]; exact h4
          have ht6 : 6 ≤ t.length := by
            by_contra hlt
            push_neg at hlt
            have hx : ((t ++ (s2 ++ (vname v ++ [13, 10, 13, 10]))).take 6).getD t.length 0 =
                s2.getD 0 0 := by
              rw [getD_take _ _ _ (by omega), getD_append_ge t _ _ (le_refl _), Nat.sub_self,
                getD_append_lt s2 _ _ hs2pos]
            rw [hlist] at hx
            have hl3 : ∀ i, i < 6 →
                (vname Version.h3).getD i 0 ≠ 32 ∧ (vname Version.h3).getD i 0 ≠ 9 := by
              decide
            obtain ⟨hA, hB⟩ := hl3 t.length (by omega)
            have := hs2 _ (getD_is_mem s2 0 hs2pos)
            omega
          right
          exact ⟨p + 6, .h3, by rw [if_neg h1, if_neg h2, if_neg h3, if_pos h4], by omega,
            hbyte 6 ht6⟩
        · left
          rw [if_neg h1, if_neg h2, if_neg h3, if_neg h4]

/-- C5: between method and request-target and between target and version,
exactly one SP (0x20) is accepted.  For every request-line-shaped input
`{m} sep1 {t} sep2 {v} CRLF CRLF` whose separators consist of SP/HTAB
bytes, if either separator is longer than one byte or contains an HTAB,
`parse` returns an error rather than a successful parse.  (The target `t`
ranges over non-empty printable bytes excluding `<`/`>`, the classes the
in-source vectorized target validator accepts.) -/
theorem C5_single_sp_separators (M : Method) (v : Version) (t s1 s2 : List Nat)
    (ht0 : t ≠ []) (htc : ∀ b ∈ t, 33 ≤ b ∧ b ≤ 126 ∧ b ≠ 60 ∧ b ≠ 62)
    (hs1 : ∀ b ∈ s1, b = 32 ∨ b = 9) (hs2 : ∀ b ∈ s2, b = 32 ∨ b = 9)
    (hs1n : s1 ≠ []) (hs2n : s2 ≠ [])
    (hbad : 1 < s1.length ∨ 1 < s2.length ∨ 9 ∈ s1 ∨ 9 ∈ s2) :
    ∃ e, (parseFresh (mname M ++ (s1 ++ (t ++ (s2 ++ (vname v ++ [13, 10, 13, 10])))))).2
      = .error e := by
  cases s1 with
  | nil => exact absurd rfl hs1n
  | cons b1 s1' =>
    have hml : mlen M = (mname M).length := rfl
    have hlm1 : 3 ≤ (mname M).length := by cases M <;> decide
    have hlm2 : (mname M).length ≤ 7 := by cases M <;> decide
    have hvl1 : 6 ≤ (vname v).length := by cases v <;> decide
    have hvl2 : (vname v).length ≤ 8 := by cases v <;> decide
    have htl : 1 ≤ t.length := by
      cases t with
      | nil => cases ht0 rfl
      | cons a l => simp
    have hs2pos : 0 < s2.length := List.length_pos.mpr hs2n
    have hL : (mname M ++ ((b1 :: s1') ++ (t ++ (s2 ++ (vname v ++ [13, 10, 13, 10]))))).length
        = (mname M).length + 1 + s1'.length + t.length + s2.length + (vname v).length + 4 := by
      simp
      omega
    have hm : parse_method
        (mname M ++ ((b1 :: s1') ++ (t ++ (s2 ++ (vname v ++ [13, 10, 13, 10]))))) =
        .ok (.complete (mlen M, M)) :=
      parse_method_name M _ (by simp; omega)
    have hb_lm : (mname M ++ ((b1 :: s1') ++ (t ++ (s2 ++
        (vname v ++ [13, 10, 13, 10]))))).getD (mlen M) 0 = b1 := by
      rw [hml, getD_append_ge _ _ _ (le_refl _), Nat.sub_self]
      simp
    rcases hs1 b1 (by simp) with hb1 | hb1
    case inr =>
      -- HTAB in place of the first separator byte: required whitespace fails
      have hdw : discard_required_whitespace
          (mname M ++ ((b1 :: s1') ++ (t ++ (s2 ++ (vname v ++ [13, 10, 13, 10])))))
          (mlen M) .method = .error .method :=
        drw_err _ _ _ (by omega) (by rw [hb_lm, hb1]; decide)
      exact ⟨.method, by simp only [parseFresh, H1Request.parse, hm, hdw]⟩
    case inl =>
      -- first byte is SP; it is consumed
      have hdw1 : discard_required_whitespace
          (mname M ++ ((b1 :: s1') ++ (t ++ (s2 ++ (vname v ++ [13, 10, 13, 10])))))
          (mlen M) .method = .ok (.complete (mlen M + 1)) :=
        drw_sp _ _ _ (by omega) (by rw [hb_lm, hb1])
      have hdropA : (mname M ++ ((b1 :: s1') ++ (t ++ (s2 ++
          (vname v ++ [13, 10, 13, 10]))))).drop (mlen M + 1) =
          s1' ++ (t ++ (s2 ++ (vname v ++ [13, 10, 13, 10]))) := by
        have hsp : mname M ++ ((b1 :: s1') ++ (t ++ (s2 ++ (vname v ++ [13, 10, 13, 10])))) =
            (mname M ++ [b1]) ++ (s1' ++ (t ++ (s2 ++ (vname v ++ [13, 10, 13, 10])))) := by
          simp
        rw [hsp, show mlen M + 1 = (mname M ++ [b1]).length by simp [mlen], List.drop_left]
      cases s1' with
      | nil =>
        -- s1 = [SP]: the target consumes t and stops at the head of s2
        cases s2 with
        | nil => exact absurd rfl hs2n
        | cons b2 s2' =>
          have hdropA2 : (mname M ++ ((b1 :: []) ++ (t ++ ((b2 :: s2') ++
              (vname v ++ [13, 10, 13, 10]))))).drop (mlen M + 1) =
              t ++ ((b2 :: s2') ++ (vname v ++ [13, 10, 13, 10])) := by
            simpa using hdropA
          have hbj : (mname M ++ ((b1 :: []) ++ (t ++ ((b2 :: s2') ++
              (vname v ++ [13, 10, 13, 10]))))).getD (mlen M + 1 + t.length) 0 = b2 := by
            have h := getD_drop (mname M ++ ((b1 :: []) ++ (t ++ ((b2 :: s2') ++
              (vname v ++ [13, 10, 13, 10]))))) (mlen M + 1) t.length
            rw [hdropA2, getD_append_ge t _ _ (le_refl _), Nat.sub_self] at h
            simpa using h.symm
          have hcls : ∀ i, mlen M + 1 ≤ i → i < mlen M + 1 + t.length →
              targetLane ((mname M ++ ((b1 :: []) ++ (t ++ ((b2 :: s2') ++
                (vname v ++ [13, 10, 13, 10]))))).getD i 0) = true ∧
              is_request_target_token ((mname M ++ ((b1 :: []) ++ (t ++ ((b2 :: s2') ++
                (vname v ++ [13, 10, 13, 10]))))).getD i 0) = true := by
            intro i h1 h2
            have hg : (mname M ++ ((b1 :: []) ++ (t ++ ((b2 :: s2') ++
                (vname v ++ [13, 10, 13, 10]))))).getD i 0 =
                t.getD (i - (mlen M + 1)) 0 := by
              have h := getD_drop (mname M ++ ((b1 :: []) ++ (t ++ ((b2 :: s2') ++
                (vname v ++ [13, 10, 13, 10]))))) (mlen M + 1) (i - (mlen M + 1))
              rw [Nat.add_sub_cancel' h1] at h
              rw [← h, hdropA2, getD_append_lt _ _ _ (by omega)]
            have hmem : t.getD (i - (mlen M + 1)) 0 ∈ t := getD_is_mem t _ (by omega)
            obtain ⟨ha, hb', hc, hd⟩ := htc _ hmem
            constructor
            · rw [hg, targetLane_char _ (by omega)]
              simp only [Bool.and_eq_true, decide_eq_true_eq, Bool.not_eq_true',
                beq_eq_false_iff_ne]
              exact ⟨⟨⟨ha, hb'⟩, hc⟩, hd⟩
            · rw [hg]
              simp only [is_request_target_token, Bool.and_eq_true, decide_eq_true_eq]
              exact ⟨ha, hb'⟩
          rcases hs2 b2 (by simp) with hb2 | hb2
          case inr =>
            -- s2 starts with HTAB: the second required whitespace fails
            have htgt : parse_target (mname M ++ ((b1 :: []) ++ (t ++ ((b2 :: s2') ++
                (vname v ++ [13, 10, 13, 10]))))) (mlen M + 1) =
                .ok (.complete (mlen M + 1 + t.length,
                  (mlen M + 1, mlen M + 1 + t.length))) :=
              parse_target_clean _ _ _ (by omega) (by rw [hL]; simp; omega) hcls
                (by rw [hbj, hb2]; decide) (by rw [hbj, hb2]; decide)
            have hdw2 : discard_required_whitespace (mname M ++ ((b1 :: []) ++ (t ++
                ((b2 :: s2') ++ (vname v ++ [13, 10, 13, 10])))))
                (mlen M + 1 + t.length) .method = .error .method :=
              drw_err _ _ _ (by rw [hL]; simp; omega) (by rw [hbj, hb2]; decide)
            exact ⟨.method,
              by simp only [parseFresh, H1Request.parse, hm, hdw1, htgt, hdw2]⟩
          case inl =>
            -- s2 starts with SP (consumed); s2 must then be longer or contain HTAB
            have htgt : parse_target (mname M ++ ((b1 :: []) ++ (t ++ ((b2 :: s2') ++
                (vname v ++ [13, 10, 13, 10]))))) (mlen M + 1) =
                .ok (.complete (mlen M + 1 + t.length,
                  (mlen M + 1, mlen M + 1 + t.length))) :=
              parse_target_clean _ _ _ (by omega) (by rw [hL]; simp; omega) hcls
                (by rw [hbj, hb2]; decide) (by rw [hbj, hb2]; decide)
            have hdw2 : discard_required_whitespace (mname M ++ ((b1 :: []) ++ (t ++
                ((b2 :: s2') ++ (vname v ++ [13, 10, 13, 10])))))
                (mlen M + 1 + t.length) .method =
                .ok (.complete (mlen M + 1 + t.length + 1)) :=
              drw_sp _ _ _ (by rw [hL]; simp; omega) (by rw [hbj, hb2])
            cases s2' with
            | nil =>
              -- s1 = [SP] and s2 = [SP]: contradicts the badness hypothesis
              exfalso
              rcases hbad with h | h | h | h <;> simp_all
            | cons b3 s2'' =>
              have hdropB : (mname M ++ ((b1 :: []) ++ (t ++ ((b2 :: b3 :: s2'') ++
                  (vname v ++ [13, 10, 13, 10]))))).drop (mlen M + 1 + t.length + 1) =
                  (b3 :: s2'') ++ (vname v ++ [13, 10, 13, 10]) := by
                have hsp2 : mname M ++ ((b1 :: []) ++ (t ++ ((b2 :: b3 :: s2'') ++
                    (vname v ++ [13, 10, 13, 10])))) =
                    ((mname M ++ [b1]) ++ (t ++ [b2])) ++
                      ((b3 :: s2'') ++ (vname v ++ [13, 10, 13, 10])) := by
                  simp
                rw [hsp2, show mlen M + 1 + t.length + 1 =
                  ((mname M ++ [b1]) ++ (t ++ [b2])).length by simp [mlen]; omega,
                  List.drop_left]
              have hrem : (mname M ++ ((b1 :: []) ++ (t ++ ((b2 :: b3 :: s2'') ++
                  (vname v ++ [13, 10, 13, 10]))))).length -
                  (mlen M + 1 + t.length + 1) =
                  1 + s2''.length + (vname v).length + 4 := by
                have hx := congrArg List.length hdropB
                simp only [List.length_drop] at hx
                rw [hx]
                simp
                omega
              have hbv : (mname M ++ ((b1 :: []) ++ (t ++ ((b2 :: b3 :: s2'') ++
                  (vname v ++ [13, 10, 13, 10]))))).getD (mlen M + 1 + t.length + 1) 0 =
                  b3 := by
                have h := getD_drop (mname M ++ ((b1 :: []) ++ (t ++ ((b2 :: b3 :: s2'') ++
                  (vname v ++ [13, 10, 13, 10]))))) (mlen M + 1 + t.length + 1) 0
                rw [hdropB] at h
                simpa using h.symm
              have hb3 := hs2 b3 (by simp)
              have hver : parse_version (mname M ++ ((b1 :: []) ++ (t ++ ((b2 :: b3 :: s2'') ++
                  (vname v ++ [13, 10, 13, 10]))))) (mlen M + 1 + t.length + 1) =
                  .error .version :=
                parse_version_err_first _ _ (by omega)
                  (by rw [hbv]; rcases hb3 with h | h <;> omega)
                  (by rw [hbv]; rcases hb3 with h | h <;> omega)
              exact ⟨.version,
                by simp only [parseFresh, H1Request.parse, hm, hdw1, htgt, hdw2, hver]⟩
      | cons b2' s1'' =>
        -- s1 is at least two bytes: the target stops immediately (empty target)
        have hbs : (mname M ++ ((b1 :: b2' :: s1'') ++ (t ++ (s2 ++
            (vname v ++ [13, 10, 13, 10]))))).getD (mlen M + 1) 0 = b2' := by
          have h := getD_drop (mname M ++ ((b1 :: b2' :: s1'') ++ (t ++ (s2 ++
            (vname v ++ [13, 10, 13, 10]))))) (mlen M + 1) 0
          rw [hdropA] at h
          simpa using h.symm
        have hb2' := hs1 b2' (by simp)
        have htgt : parse_target (mname M ++ ((b1 :: b2' :: s1'') ++ (t ++ (s2 ++
            (vname v ++ [13, 10, 13, 10]))))) (mlen M + 1) =
            .ok (.complete (mlen M + 1, (mlen M + 1, mlen M + 1))) :=
          parse_target_clean _ _ _ (le_refl _) (by omega)
            (fun i h1 h2 => absurd h2 (by omega))
            (by rw [hbs]; rcases hb2' with h | h <;> rw [h] <;> decide)
            (by rw [hbs]; rcases hb2' with h | h <;> rw [h] <;> decide)
        rcases hb2' with hb2' | hb2'
        case inr =>
          have hdw2 : discard_required_whitespace (mname M ++ ((b1 :: b2' :: s1'') ++ (t ++
              (s2 ++ (vname v ++ [13, 10, 13, 10]))))) (mlen M + 1) .method =
              .error .method :=
            drw_err _ _ _ (by omega) (by rw [hbs, hb2']; decide)
          exact ⟨.method,
            by simp only [parseFresh, H1Request.parse, hm, hdw1, htgt, hdw2]⟩
        case inl =>
          have hdw2 : discard_required_whitespace (mname M ++ ((b1 :: b2' :: s1'') ++ (t ++
              (s2 ++ (vname v ++ [13, 10, 13, 10]))))) (mlen M + 1) .method =
              .ok (.complete (mlen M + 1 + 1)) :=
            drw_sp _ _ _ (by omega) (by rw [hbs, hb2'])
          have hdropC : (mname M ++ ((b1 :: b2' :: s1'') ++ (t ++ (s2 ++
              (vname v ++ [13, 10, 13, 10]))))).drop (mlen M + 1 + 1) =
              s1'' ++ (t ++ (s2 ++ (vname v ++ [13, 10, 13, 10]))) := by
            have hsp3 : mname M ++ ((b1 :: b2' :: s1'') ++ (t ++ (s2 ++
                (vname v ++ [13, 10, 13, 10])))) =
                ((mname M ++ [b1]) ++ [b2']) ++
                  (s1'' ++ (t ++ (s2 ++ (vname v ++ [13, 10, 13, 10])))) := by
              simp
            rw [hsp3, show mlen M + 1 + 1 = ((mname M ++ [b1]) ++ [b2']).length
              by simp [mlen], List.drop_left]
          cases s1'' with
          | cons b3' s1''' =>
            -- a third separator byte: the version decoder sees SP/HTAB, not `H`
            have hrem : (mname M ++ ((b1 :: b2' :: b3' :: s1''') ++ (t ++ (s2 ++
                (vname v ++ [13, 10, 13, 10]))))).length - (mlen M + 1 + 1) =
                1 + s1'''.length + t.length + s2.length + (vname v).length + 4 := by
              have hx := congrArg List.length hdropC
              simp only [List.length_drop] at hx
              rw [hx]
              simp
              omega
            have hbv : (mname M ++ ((b1 :: b2' :: b3' :: s1''') ++ (t ++ (s2 ++
                (vname v ++ [13, 10, 13, 10]))))).getD (mlen M + 1 + 1) 0 = b3' := by
              have h := getD_drop (mname M ++ ((b1 :: b2' :: b3' :: s1''') ++ (t ++ (s2 ++
                (vname v ++ [13, 10, 13, 10]))))) (mlen M + 1 + 1) 0
              rw [hdropC] at h
              simpa using h.symm
            have hb3' := hs1 b3' (by simp)
            have hver : parse_version (mname M ++ ((b1 :: b2' :: b3' :: s1''') ++ (t ++ (s2 ++
                (vname v ++ [13, 10, 13, 10]))))) (mlen M + 1 + 1) = .error .version :=
              parse_version_err_first _ _ (by omega)
                (by rw [hbv]; rcases hb3' with h | h <;> omega)
                (by rw [hbv]; rcases hb3' with h | h <;> omega)
            exact ⟨.version,
              by simp only [parseFresh, H1Request.parse, hm, hdw1, htgt, hdw2, hver]⟩
          | nil =>
            -- s1 = [SP, SP]: the version decoder runs where the target should be
            rcases parse_version_garbled (mname M ++ ((b1 :: b2' :: []) ++ (t ++ (s2 ++
                (vname v ++ [13, 10, 13, 10]))))) (mlen M + 1 + 1) t s2 v
                (by simpa using hdropC)
                (fun b hb => ⟨(htc b hb).1, (htc b hb).2.1⟩) hs2 hs2n with
              hverr | ⟨q, v2, hvq, hqlen, hq13⟩
            · exact ⟨.version,
                by simp only [parseFresh, H1Request.parse, hm, hdw1, htgt, hdw2, hverr]⟩
            · have hnl : discard_required_newline (mname M ++ ((b1 :: b2' :: []) ++ (t ++
                  (s2 ++ (vname v ++ [13, 10, 13, 10]))))) q .newLine = .error .newLine :=
                drn_err _ _ _ hqlen hq13
              exact ⟨.newLine,
                by simp only [parseFresh, H1Request.parse, hm, hdw1, htgt, hdw2, hvq, hnl]⟩

/-- Witness for `C5_single_sp_separators` at `"GET  / HTTP/1.1\r\n\r\n"`
(two spaces between method and target). -/
theorem C5_single_sp_witness :
    ∃ e, (parseFresh (mname .get ++ ([32, 32] ++ ([47] ++ ([32] ++
      (vname .h1_1 ++ [13, 10, 13, 10])))))).2 = .error e :=
  C5_single_sp_separators .get .h1_1 [47] [32, 32] [32] (by decide) (by decide)
    (by decide) (by decide) (by decide) (by decide) (by decide)

/-- C4 (counterexample): parsing the truncated request `"GET / HTTP/1."`
on a fresh request returns `Partial`, yet the `method` and `target` fields
have visibly changed from `none` to the values written by the completed
method and target stages — partial mutation of the output is visible. -/
theorem C4_partial_mutation_visible :
    (parseFresh [71, 69, 84, 32, 47, 32, 72, 84, 84, 80, 47, 49, 46]).2 = .pending ∧
    (parseFresh [71, 69, 84, 32, 47, 32, 72, 84, 84, 80, 47, 49, 46]).1.method = some .get ∧
    (parseFresh [71, 69, 84, 32, 47, 32, 72, 84, 84, 80, 47, 49, 46]).1.target = some (4, 5) := by
  decide

/-- `parseHeadersGo` reports `complete` only at a position where the
terminating CRLF is present. -/
theorem parseHeadersGo_complete_crlf (buf : List Nat) (cap : Nat) :
    ∀ fuel pos acc q hs, parseHeadersGo buf cap pos acc fuel = .complete q hs →
      2 ≤ buf.length - q ∧ (buf.drop q).take 2 = [13, 10] := by
  intro fuel
  induction fuel with
  | zero =>
    intro pos acc q hs h
    simp [parseHeadersGo] at h
  | succ fuel ih =>
    intro pos acc q hs h
    unfold parseHeadersGo at h
    cases hn : get_header_name buf pos with
    | error e =>
      simp only [hn] at h
      by_cases hc : 2 ≤ buf.length - pos ∧ (buf.drop pos).take 2 = [13, 10]
      · rw [if_pos hc] at h
        cases h
        exact hc
      · rw [if_neg hc] at h
        simp at h
    | ok s =>
      cases s with
      | pending => simp only [hn] at h; simp at h
      | complete val =>
        obtain ⟨read, name⟩ := val
        simp only [hn] at h
        by_cases hcol : buf.getD read 0 = 58
        · rw [if_pos hcol] at h
          cases hdw : discard_whitespace buf (read + 1) with
          | none => simp only [hdw] at h; simp at h
          | some n =>
            simp only [hdw] at h
            cases hv : get_header_value buf n with
            | error e => simp only [hv] at h; simp at h
            | ok s2 =>
              cases s2 with
              | pending => simp only [hv] at h; simp at h
              | complete val2 =>
                obtain ⟨read2, value⟩ := val2
                simp only [hv] at h
                by_cases hcap : acc.length < cap
                · rw [if_pos hcap] at h
                  cases hdw2 : discard_whitespace buf read2 with
                  | none => simp only [hdw2] at h; simp at h
                  | some n2 =>
                    simp only [hdw2] at h
                    cases hnl : discard_required_newline buf n2 .headerValue with
                    | error e => simp only [hnl] at h; simp at h
                    | ok s3 =>
                      cases s3 with
                      | pending => simp only [hnl] at h; simp at h
                      | complete n3 =>
                        simp only [hnl] at h
                        exact ih n3 _ q hs h
                · rw [if_neg hcap] at h
                  simp at h
        · rw [if_neg hcol] at h
          simp at h

/-- After a `complete` result of `parse_headers`, the required newline at
the reported position always succeeds (the terminating CRLF is there). -/
theorem parse_headers_complete_newline (buf : List Nat) (p cap q : Nat)
    (hs : List Header) (err : ParseError)
    (h : parse_headers buf p cap = .complete q hs) :
    discard_required_newline buf q err = .ok (.complete (q + 2)) := by
  unfold parse_headers at h
  obtain ⟨h1, h2⟩ := parseHeadersGo_complete_crlf buf cap _ p [] q hs h
  have hb13 : buf.getD q 0 = 13 := by
    have hx := getD_take (buf.drop q) 2 0 (by omega)
    rw [h2, getD_drop] at hx
    simpa using hx.symm
  have hb10 : buf.getD (q + 1) 0 = 10 := by
    have hx := getD_take (buf.drop q) 2 1 (by omega)
    rw [h2, getD_drop] at hx
    simpa using hx.symm
  exact drn_crlf buf q err (by omega) hb13 hb10

/-- C4 (amended): on every `parse` call that returns `Partial`, the
`complete` flag and the input buffer are unchanged; the `method`, `target`,
`version` and `headers` fields, however, may visibly hold the values
written by the stages that completed before the input ran out. -/
theorem C4_pending_preserves_complete (r : H1Request)
    (h : (H1Request.parse r).2 = .pending) :
    (H1Request.parse r).1.complete = r.complete ∧ (H1Request.parse r).1.data = r.data := by
  unfold H1Request.parse at h ⊢
  cases hm : parse_method r.data with
  | error e => simp [hm] at h
  | ok s =>
    cases s with
    | pending => simp [hm]
    | complete val =>
      obtain ⟨read, m⟩ := val
      simp only [hm] at h ⊢
      cases hdw : discard_required_whitespace r.data read .method with
      | error e => simp [hdw] at h
      | ok s2 =>
        cases s2 with
        | pending => simp [hdw]
        | complete p1 =>
          simp only [hdw] at h ⊢
          cases htg : parse_target r.data p1 with
          | error e => simp [htg] at h
          | ok s3 =>
            cases s3 with
            | pending => simp [htg]
            | complete val2 =>
              obtain ⟨p2, rng⟩ := val2
              simp only [htg] at h ⊢
              cases hdw2 : discard_required_whitespace r.data p2 .method with
              | error e => simp [hdw2] at h
              | ok s4 =>
                cases s4 with
                | pending => simp [hdw2]
                | complete p3 =>
                  simp only [hdw2] at h ⊢
                  cases hv : parse_version r.data p3 with
                  | error e => simp [hv] at h
                  | ok s5 =>
                    cases s5 with
                    | pending => simp [hv]
                    | complete val3 =>
                      obtain ⟨p4, ver⟩ := val3
                      simp only [hv] at h ⊢
                      cases hnl : discard_required_newline r.data p4 .newLine with
                      | error e => simp [hnl] at h
                      | ok s6 =>
                        cases s6 with
                        | pending => simp [hnl]
                        | complete p5 =>
                          simp only [hnl] at h ⊢
                          cases hh : parse_headers r.data p5 96 with
                          | pending hs => simp [hh]
                          | error e => simp [hh] at h
                          | crash => simp [hh] at h
                          | complete p6 hs =>
                            simp only [hh] at h ⊢
                            cases hnl2 : discard_required_newline r.data p6 .newLine with
                            | error e => simp [hnl2] at h
                            | ok s7 =>
                              cases s7 with
                              | pending => simp [hnl2]
                              | complete p7 => simp [hnl2] at h

/-- Witness for `C4_pending_preserves_complete` at `"GET / HTTP/1."`. -/
theorem C4_pending_witness :
    (H1Request.parse ⟨[71, 69, 84, 32, 47, 32, 72, 84, 84, 80, 47, 49, 46], false,
        none, none, none, none⟩).1.complete = false := by
  have h := C4_pending_preserves_complete
    ⟨[71, 69, 84, 32, 47, 32, 72, 84, 84, 80, 47, 49, 46], false, none, none, none, none⟩
    (by decide)
  exact h.1

/-- C10: on every `parse` call on a fresh request that returns an error,
the `complete` flag remains `false`, while the `method`, `target` and
`version` fields hold exactly the values written by the stages that
completed earlier in that same call (the stage projections `methodStage`,
`targetStage`, `versionStage`), and `headers` is untouched — no rollback of
previously written output fields is performed. -/
theorem C10_error_no_rollback (data : List Nat) (e : ParseError)
    (h : (parseFresh data).2 = .error e) :
    (parseFresh data).1.complete = false ∧
    (parseFresh data).1.method = methodStage data ∧
    (parseFresh data).1.target = targetStage data ∧
    (parseFresh data).1.version = versionStage data ∧
    (parseFresh data).1.headers = none := by
  unfold parseFresh H1Request.parse at h ⊢
  cases hm : parse_method data with
  | error e0 => simp [methodStage, targetStage, versionStage, hm]
  | ok s =>
    cases s with
    | pending => simp [hm] at h
    | complete val =>
      obtain ⟨read, m⟩ := val
      simp only [hm] at h ⊢
      cases hdw : discard_required_whitespace data read .method with
      | error e0 => simp [methodStage, targetStage, versionStage, hm, hdw]
      | ok s2 =>
        cases s2 with
        | pending => simp [hdw] at h
        | complete p1 =>
          simp only [hdw] at h ⊢
          cases htg : parse_target data p1 with
          | error e0 => simp [methodStage, targetStage, versionStage, hm, hdw, htg]
          | ok s3 =>
            cases s3 with
            | pending => simp [htg] at h
            | complete val2 =>
              obtain ⟨p2, rng⟩ := val2
              simp only [htg] at h ⊢
              cases hdw2 : discard_required_whitespace data p2 .method with
              | error e0 => simp [methodStage, targetStage, versionStage, hm, hdw, htg, hdw2]
              | ok s4 =>
                cases s4 with
                | pending => simp [hdw2] at h
                | complete p3 =>
                  simp only [hdw2] at h ⊢
                  cases hv : parse_version data p3 with
                  | error e0 =>
                    simp [methodStage, targetStage, versionStage, hm, hdw, htg, hdw2, hv]
                  | ok s5 =>
                    cases s5 with
                    | pending => simp [hv] at h
                    | complete val3 =>
                      obtain ⟨p4, ver⟩ := val3
                      simp only [hv] at h ⊢
                      cases hnl : discard_required_newline data p4 .newLine with
                      | error e0 =>
                        simp [methodStage, targetStage, versionStage, hm, hdw, htg, hdw2, hv, hnl]
                      | ok s6 =>
                        cases s6 with
                        | pending => simp [hnl] at h
                        | complete p5 =>
                          simp only [hnl] at h ⊢
                          cases hh : parse_headers data p5 96 with
                          | pending hs => simp [hh] at h
                          | crash => simp [hh] at h
                          | error e0 =>
                            simp [methodStage, targetStage, versionStage,
                              hm, hdw, htg, hdw2, hv, hnl, hh]
                          | complete p6 hs =>
                            simp only [hh] at h ⊢
                            rw [parse_headers_complete_newline data p5 96 p6 hs .newLine hh]
                              at h ⊢
                            simp at h

/-- Witness for `C10_error_no_rollback` at `"GET / XTTP/1.1\r\n\r\n"`: the
version stage fails, and the fields written by the completed method and
target stages remain set while `complete` stays `false`. -/
theorem C10_error_witness :
    (parseFresh [71, 69, 84, 32, 47, 32, 88, 84, 84, 80, 47, 49, 46, 49, 13, 10, 13, 10]).1.complete
      = false ∧
    (parseFresh [71, 69, 84, 32, 47, 32, 88, 84, 84, 80, 47, 49, 46, 49, 13, 10, 13, 10]).1.method
      = methodStage [71, 69, 84, 32, 47, 32, 88, 84, 84, 80, 47, 49, 46, 49, 13, 10, 13, 10] := by
  have h := C10_error_no_rollback
    [71, 69, 84, 32, 47, 32, 88, 84, 84, 80, 47, 49, 46, 49, 13, 10, 13, 10] .version (by decide)
  exact ⟨h.1, h.2.1⟩

/-- Witness for `C8_request_line_round_trip` at `GET / HTTP/1.1\r\n\r\n`. -/
theorem C8_round_trip_witness :
    parseFresh (reqLine .get [47] .h1_1) =
      ({ data := reqLine .get [47] .h1_1, complete := true, method := some .get,
         target := some (4, 5), version := some .h1_1, headers := some [] },
       .complete (reqLine .get [47] .h1_1).length) := by
  have h := C8_request_line_round_trip .get .h1_1 [47] (by decide) (by decide)
  simpa using h

end Rask
